import Mathlib

/- Shallow embedding of the Atari DOS 2.0S / DOS 2.5 diskette filesystem
   engine of atr.c.  The raw .ATR container is modelled as a total
   byte-addressed store (byte offset to byte value); sector input/output,
   the VTOC free-space bitmap, the 64-entry directory table and the
   chained-sector file codec are translated function by function from the
   C source.  Machine bytes are Nat with explicit % 256 at the points
   where the C code truncates to unsigned char. -/

namespace Atr

set_option maxRecDepth 4000
set_option maxHeartbeats 1000000

/-- Error kinds surfaced by the operations (spec section 7).  The C tool
reports them by printing and returning -1 (or by exiting, for sector 0);
the embedding makes the error value explicit. -/
inductive AtrErr where
  | invalidSectorZero
  | ioFailure
  | insufficientSpace
  | directoryFull
  | notFound
  | corruptChain
deriving DecidableEq

/-- The raw .ATR container: a byte-addressed store (offset to byte). -/
def Disk : Type := Nat → Nat

/-- Byte offset of the first byte of a sector: the C code seeks to
(sect - 1) * SECTOR_SIZE + 16 (16-byte .ATR header). -/
def sectBase (sect : Nat) : Nat := (sect - 1) * 128 + 16

/-- getsect, data path: read the 128 bytes of a sector. -/
def readSector (d : Disk) (sect : Nat) : List Nat :=
  (List.range 128).map (fun i => d (sectBase sect + i))

/-- putsect, data path: write 128 bytes at the sector's offset.  Values
are stored mod 256 because the C buffer holds unsigned chars. -/
def writeSector (d : Disk) (sect : Nat) (buf : List Nat) : Disk :=
  fun off =>
    if sectBase sect ≤ off ∧ off < sectBase sect + 128 then
      buf.getD (off - sectBase sect) 0 % 256
    else d off

/-- Apply a sequence of putsect calls, first element first. -/
def applyLog (d : Disk) (log : List (Nat × List Nat)) : Disk :=
  log.foldl (fun dd p => writeSector dd p.1 p.2) d

/-- A 128-byte sector image as it reads back after a putsect: each byte
reduced mod 256 and missing bytes defaulted to 0. -/
def normBuf (b : List Nat) : List Nat :=
  (List.range 128).map (fun i => b.getD i 0 % 256)

/-- A backing store whose reads can fail (none = the underlying fread
found no byte, e.g. an input/output error or short file). -/
def Store : Type := Nat → Option Nat

/-- getsect with the fallible backing store.  Translated from the C
function: the only failure it checks for is sector 0 (it prints and
exits); the results of fseek and fread are ignored, so a failed read
simply leaves the caller's buffer bytes unset (modelled as 0). -/
def getsectE (st : Store) (sect : Nat) : Except AtrErr (List Nat) :=
  if sect = 0 then Except.error AtrErr.invalidSectorZero
  else Except.ok ((List.range 128).map (fun i => (st (sectBase sect + i)).getD 0))

/-- putsect with the fallible backing store.  As in the C function, the
result of fwrite is ignored: after the sector-0 check the write always
reports success. -/
def putsectE (st : Store) (sect : Nat) (buf : List Nat) : Except AtrErr Store :=
  if sect = 0 then Except.error AtrErr.invalidSectorZero
  else Except.ok (fun off =>
    if sectBase sect ≤ off ∧ off < sectBase sect + 128 then
      some (buf.getD (off - sectBase sect) 0 % 256)
    else st off)

/-- Number of free bits in one bitmap byte: the C inner loop tests the
byte against each mask x = 1, 2, 4, ..., 128. -/
def bitsInByte (b : Nat) : Nat :=
  ((List.range 8).filter (fun j => b &&& (1 <<< j) != 0)).length

/-- count_free: number of set (free) bits in the first len bitmap bytes. -/
def count_free (bm : List Nat) (len : Nat) : Nat :=
  ((List.range len).map (fun i => bitsInByte (bm.getD i 0))).sum

/-- Test the bitmap bit of a sector: bitmap[x >> 3] & (1 << (7 - (x & 7))). -/
def bmGet (bm : List Nat) (x : Nat) : Bool :=
  bm.getD (x >>> 3) 0 &&& (1 <<< (7 - (x &&& 7))) != 0

/-- Clear the bitmap bit of a sector (mark it in use):
bitmap[x >> 3] &= ~(1 << (7 - (x & 7))), with the complement of a one-byte
mask written as 255 ^^^ mask. -/
def bmClear (bm : List Nat) (x : Nat) : List Nat :=
  bm.set (x >>> 3) (bm.getD (x >>> 3) 0 &&& (255 ^^^ (1 <<< (7 - (x &&& 7)))))

/-- Set the bitmap bit of a sector (mark it free):
bitmap[x >> 3] |= 1 << (7 - (x & 7)). -/
def bmSet (bm : List Nat) (x : Nat) : List Nat :=
  bm.set (x >>> 3) (bm.getD (x >>> 3) 0 ||| (1 <<< (7 - (x &&& 7))))

/-- mark_space: mark a sector allocated (clear its bit) or free (set it). -/
def mark_space (bm : List Nat) (start : Nat) (alloc : Bool) : List Nat :=
  if alloc then bmClear bm start else bmSet bm start

/-- The inner for loop of alloc_space: first x in [1, disk_size) whose
bitmap bit is free. -/
def firstFreeSect (ds : Nat) (bm : List Nat) : Option Nat :=
  (List.range' 1 (ds - 1)).find? (fun x => bmGet bm x)

/-- alloc_space: repeatedly scan from sector 1 for a free bit, record the
sector and clear its bit, sects times.  Returns the chosen list (in the
order chosen) on success, none on failure; the second component is the
caller's bitmap array, which keeps the bits already cleared even when the
allocation fails. -/
def alloc_space (ds : Nat) (bm : List Nat) : Nat → Option (List Nat) × List Nat
  | 0 => (some [], bm)
  | sects + 1 =>
    match firstFreeSect ds bm with
    | none => (none, bm)
    | some x =>
      match alloc_space ds (bmClear bm x) sects with
      | (some l, bm2) => (some (x :: l), bm2)
      | (none, bm2) => (none, bm2)

/-- getbitmap, data path: bytes 10..99 of the VTOC sector, and under
extended geometry also bytes 84..121 of the VTOC2 sector. -/
def getbitmap_bm (ds : Nat) (d : Disk) : List Nat :=
  let base := ((readSector d 360).drop 10).take 90
  if ds = 1024 then base ++ ((readSector d 1024).drop 84).take 38 else base

/-- The first check of getbitmap(check = 1): the free count recomputed
from the stored base-region bitmap bytes equals the count stored in VTOC
bytes 3..4. -/
def getbitmap_vtoc_count_ok (d : Disk) : Bool :=
  let vtoc := readSector d 360
  let bmp := (vtoc.drop 10).take 90
  count_free bmp 90 == vtoc.getD 3 0 + 256 * vtoc.getD 4 0

/-- The extended-geometry check of getbitmap(check = 1): the free count
recomputed from VTOC2 bytes 84..121 equals the count stored in VTOC2
bytes 122..123. -/
def getbitmap_vtoc2_count_ok (d : Disk) : Bool :=
  let vtoc2 := readSector d 1024
  let bmp2 := (vtoc2.drop 84).take 38
  count_free bmp2 38 == vtoc2.getD 122 0 + 256 * vtoc2.getD 123 0

/-- The VTOC sector image built by putbitmap: the 90 base-region bitmap
bytes at offsets 10..99, the recomputed free count at bytes 3..4, every
other byte kept from the sector read from disk. -/
def vtocImage (d : Disk) (bm : List Nat) : List Nat :=
  (List.range 128).map (fun i =>
    if 10 ≤ i ∧ i < 100 then bm.getD (i - 10) 0
    else if i = 3 then count_free bm 90 % 256
    else if i = 4 then (count_free bm 90 >>> 8) % 256
    else (readSector d 360).getD i 0)

/-- The VTOC2 sector image built by putbitmap under extended geometry:
bitmap bytes 6..127 at offsets 0..121 (offsets 0..83 being the mirror of
the base-region bits for sectors 48..719, offsets 84..121 the bitmap for
sectors 720..1023), the recomputed upper-region free count at bytes
122..123, bytes 124..127 kept from the sector read from disk. -/
def vtoc2Image (d1 : Disk) (bm : List Nat) : List Nat :=
  (List.range 128).map (fun i =>
    if i < 122 then bm.getD (6 + i) 0
    else if i = 122 then count_free (bm.drop 90) 38 % 256
    else if i = 123 then (count_free (bm.drop 90) 38 >>> 8) % 256
    else (readSector d1 1024).getD i 0)

/-- putbitmap: write the base region and its recomputed free count into
the VTOC sector; under extended geometry also write the mirror bytes, the
secondary region and its recomputed free count into the VTOC2 sector. -/
def putbitmap (ds : Nat) (d : Disk) (bm : List Nat) : Disk :=
  let d1 := writeSector d 360 (vtocImage d bm)
  if ds = 1024 then writeSector d1 1024 (vtoc2Image d1 bm) else d1

/-- A 16-byte directory entry, fields as in the C struct dirent. -/
structure dirent where
  flag : Nat
  count_lo : Nat
  count_hi : Nat
  start_lo : Nat
  start_hi : Nat
  name : List Nat
  suffix : List Nat

/-- Decode the directory entry at byte offset y of a directory sector. -/
def decodeEntry (buf : List Nat) (y : Nat) : dirent :=
  ⟨buf.getD y 0, buf.getD (y + 1) 0, buf.getD (y + 2) 0,
   buf.getD (y + 3) 0, buf.getD (y + 4) 0,
   (buf.drop (y + 5)).take 8, (buf.drop (y + 13)).take 3⟩

/-- Starting sector of an entry: (start_hi << 8) + start_lo. -/
def dirent.start (e : dirent) : Nat := (e.start_hi <<< 8) + e.start_lo

/-- Sector count of an entry: (count_hi << 8) + count_lo. -/
def dirent.count (e : dirent) : Nat := (e.count_hi <<< 8) + e.count_lo

/-- lower: map an upper-case ASCII letter to lower case. -/
def lower (c : Nat) : Nat := if 65 ≤ c ∧ c ≤ 90 then c + 32 else c

/-- upper: map a lower-case ASCII letter to upper case (used by putname). -/
def upper (c : Nat) : Nat := if 97 ≤ c ∧ c ≤ 122 then c - 32 else c

/-- The zap-trailing-spaces loops of getname: while (p && s[p-1] == ' ') --p. -/
def dropTrailingSpaces (l : List Nat) : List Nat :=
  (l.reverse.dropWhile (fun c => c == 32)).reverse

/-- getname: lower-case the 8-byte name, strip trailing spaces, append a
dot and the lower-cased 3-byte extension, strip trailing spaces again,
and drop the dot when nothing follows it. -/
def getname (e : dirent) : List Nat :=
  let s1 := dropTrailingSpaces (e.name.map lower)
  let s2 := dropTrailingSpaces (s1 ++ [46] ++ e.suffix.map lower)
  if s2.length = s1.length + 1 then s1 else s2

/-- putname, name part: copy up to 8 bytes (stopping at NUL or a dot),
upper-casing letters, and pad with spaces to 8 bytes. -/
def putname_name (nm : List Nat) : List Nat :=
  let base := (nm.takeWhile (fun c => c != 0 && c != 46)).take 8
  base.map upper ++ List.replicate (8 - base.length) 32

/-- putname, extension part: after the name bytes, skip forward to the
first dot (or NUL); if a dot is found, copy up to 3 following bytes
(stopping at NUL), upper-casing letters; pad with spaces to 3 bytes. -/
def putname_ext (nm : List Nat) : List Nat :=
  let consumed := min 8 (nm.takeWhile (fun c => c != 0 && c != 46)).length
  let rest := (nm.drop consumed).dropWhile (fun c => c != 0 && c != 46)
  match rest with
  | 46 :: tl =>
    let ex := ((tl.takeWhile (fun c => c != 0)).take 3).map upper
    ex ++ List.replicate (3 - ex.length) 32
  | _ => List.replicate 3 32

/-- The match test of find_file on one entry: the in-use flag (0x40) is
set and the lower-cased stored name compares equal (strcmp) with the
requested name. -/
def entryMatches (buf : List Nat) (y : Nat) (name : List Nat) : Bool :=
  let e := decodeEntry buf y
  (e.flag &&& 64 != 0) && (getname e == name)

/-- The directory scan of find_file: sectors 361..368 in order, entry
offsets 0, 16, ..., 112 in order; position of the first match. -/
def find_file_pos (d : Disk) (name : List Nat) : Option (Nat × Nat) :=
  (List.range' 361 8).findSome? (fun x =>
    ((List.range 8).find? (fun e => entryMatches (readSector d x) (16 * e) name)).map
      (fun e => (x, 16 * e)))

/-- find_file: scan the directory for the first in-use entry whose name
matches; return its starting sector.  When del is set, additionally
assign 0x80 to the matched entry's flag byte and write the directory
sector back before returning. -/
def find_file (d : Disk) (name : List Nat) (del : Bool) : Option (Nat × Disk) :=
  match find_file_pos d name with
  | none => none
  | some (x, y) =>
    let buf := readSector d x
    let e := decodeEntry buf y
    some (e.start, if del then writeSector d x (buf.set y 128) else d)

/-- The emptiness test of find_empty_entry on one entry: the in-use flag
(0x40) is clear. -/
def entryFree (buf : List Nat) (e : Nat) : Bool :=
  buf.getD (16 * e) 0 &&& 64 == 0

/-- find_empty_entry: same scan order as find_file; slot number of the
first entry whose in-use flag is clear. -/
def find_empty_entry (d : Disk) : Option Nat :=
  (List.range' 361 8).findSome? (fun x =>
    ((List.range 8).find? (fun e => entryFree (readSector d x) e)).map
      (fun e => (x - 361) * 8 + e))

/-- The directory entries in storage order (sector-major, then in-slot
order): 8 sectors of 8 entries, 64 slots. -/
def dirEntries (d : Disk) : List dirent :=
  (List.range' 361 8).flatMap (fun x =>
    (List.range 8).map (fun e => decodeEntry (readSector d x) (16 * e)))

/-- read_file: follow the sector chain from a starting sector, collecting
each sector's valid bytes (buf[127] of them); byte 126 plus the low two
bits of byte 125 give the next sector, 0 ends the chain.  When cvt is set
(cvt_ending), byte value 0x9b is rewritten to a line feed.  The C loop
has no termination bound, so the embedding takes fuel; calling getsect
with sector 0 terminates the process, modelled as invalidSectorZero. -/
def read_file (d : Disk) (cvt : Bool) : Nat → Nat → Except AtrErr (List Nat)
  | 0, _ => Except.error AtrErr.corruptChain
  | fuel + 1, sector =>
    if sector = 0 then Except.error AtrErr.invalidSectorZero
    else
      let buf := readSector d sector
      let next := buf.getD 126 0 + 256 * (buf.getD 125 0 &&& 3)
      let bytes := buf.getD 127 0
      let content := buf.take bytes
      let content := if cvt then content.map (fun b => if b = 155 then 10 else b) else content
      if next = 0 then Except.ok content
      else
        match read_file d cvt fuel next with
        | Except.ok restBytes => Except.ok (content ++ restBytes)
        | Except.error e => Except.error e

/-- The write loop of write_file over the allocated sector list: each
sector image is 125 content bytes from the buffer, then byte 125 =
(next >> 8) | (file_no << 2), byte 126 = next low byte, byte 127 = the
byte count (125, or the remaining size on the last sector).  Returns the
sequence of putsect calls in order. -/
def write_sectors (fn : Nat) : List Nat → List Nat → Nat → List (Nat × List Nat)
  | _, [], _ => []
  | buf, [s], size =>
    [(s, (List.range 125).map (fun i => buf.getD i 0) ++
         [((0 : Nat) ||| (fn <<< 2)) % 256, 0, size % 256])]
  | buf, s :: s2 :: rest, size =>
    (s, (List.range 125).map (fun i => buf.getD i 0) ++
        [(((s2 >>> 8) % 256) ||| (fn <<< 2)) % 256, s2 % 256, 125])
      :: write_sectors fn (buf.drop 125) (s2 :: rest) (size - 125)

/-- write_file: allocate sects sectors from the bitmap, then write the
buffer across them.  On success returns the first sector of the memset-
zeroed list (0 when sects = 0) together with the putsect log; on
allocation failure returns none and no sector is written.  The second
component is the caller's bitmap array as mutated by alloc_space. -/
def write_file (ds : Nat) (bm buf : List Nat) (sects fn size : Nat) :
    Option (Nat × List (Nat × List Nat)) × List Nat :=
  match alloc_space ds bm sects with
  | (none, bm2) => (none, bm2)
  | (some l, bm2) => (some (l.headD 0, write_sectors fn buf l size), bm2)

/-- write_dir: build a 16-byte entry (flag 0x40, sector count, starting
sector, putname name and extension) and splice it into the directory
sector holding the slot. -/
def write_dir (d : Disk) (fn : Nat) (name : List Nat) (first sects : Nat) : Disk :=
  let ent : List Nat :=
    [64, sects % 256, (sects >>> 8) % 256, first % 256, (first >>> 8) % 256] ++
      putname_name name ++ putname_ext name
  let x := 361 + fn / 8
  let buf := readSector d x
  writeSector d x (buf.take (16 * (fn % 8)) ++ ent ++ buf.drop (16 * (fn % 8) + 16))

/-- Starting sector stored in the directory entry of a slot. -/
def dirEntryStart (d : Disk) (slot : Nat) : Nat :=
  (decodeEntry (readSector d (361 + slot / 8)) (16 * (slot % 8))).start

/-- The chain walk of del_file: follow next pointers from the starting
sector, setting each visited sector's bitmap bit free.  Fuel bounds the
otherwise unbounded C do-while loop; entering with sector 0 would make
getsect terminate the process. -/
def del_chain (d : Disk) : Nat → Nat → List Nat → Except AtrErr (List Nat)
  | 0, _, _ => Except.error AtrErr.corruptChain
  | fuel + 1, sector, bm =>
    if sector = 0 then Except.error AtrErr.invalidSectorZero
    else
      let buf := readSector d sector
      let next := buf.getD 126 0 + 256 * (buf.getD 125 0 &&& 3)
      let bm2 := mark_space bm sector false
      if next = 0 then Except.ok bm2 else del_chain d fuel next bm2

/-- del_file: read the bitmap, free every sector of the chain, write the
bitmap back. -/
def del_file (ds fuel : Nat) (d : Disk) (sector : Nat) : Option AtrErr × Disk :=
  match del_chain d fuel sector (getbitmap_bm ds d) with
  | Except.error e => (some e, d)
  | Except.ok bm2 => (none, putbitmap ds d bm2)

/-- rm: find the file by name, tombstoning its directory entry, then free
its chain.  When the name is absent nothing is written. -/
def rm (ds fuel : Nat) (d : Disk) (name : List Nat) : Option AtrErr × Disk :=
  match find_file d name true with
  | some (first, d1) => del_file ds fuel d1 first
  | none => (some AtrErr.notFound, d)

/-- The padded size computed by put_file: the content size rounded up to
a multiple of 125 (up = size + 124; up -= up % 125). -/
def upSize (size : Nat) : Nat := size + 124 - (size + 124) % 125

/-- put_file, from the point where the local file's bytes are in memory:
pad the content with NULs to a multiple of 125, delete any existing file
of the same name (result ignored), read the bitmap, pick the first empty
directory slot, allocate and write the data sectors, write the directory
entry, and finally write the bitmap back.  Failure returns the volume as
of the failure point. -/
def put_file (ds fuel : Nat) (d : Disk) (atariName content : List Nat) :
    Option AtrErr × Disk :=
  let size := content.length
  let up := upSize size
  let bufp := content ++ List.replicate (up - size) 0
  let d1 := (rm ds fuel d atariName).2
  let bm := getbitmap_bm ds d1
  match find_empty_entry d1 with
  | none => (some AtrErr.directoryFull, d1)
  | some fn =>
    match write_file ds bm bufp (up / 125) fn size with
    | (none, _) => (some AtrErr.insufficientSpace, d1)
    | (some (first, log), bm2) =>
      let d2 := applyLog d1 log
      let d3 := write_dir d2 fn atariName first (up / 125)
      (none, putbitmap ds d3 bm2)

/-- Next-sector pointer encoded in a 128-byte sector image (the decoding
used by read_file, del_file and do_check). -/
def nextOf (data : List Nat) : Nat :=
  data.getD 126 0 + 256 * (data.getD 125 0 &&& 3)

/-- File number tag encoded in the upper 6 bits of byte 125. -/
def fileNoOf (data : List Nat) : Nat := (data.getD 125 0 >>> 2) &&& 63

/-- Valid byte count of a sector image (byte 127). -/
def bytesOf (data : List Nat) : Nat := data.getD 127 0

/-- The free sectors of a bitmap in scan order: sectors 1 .. ds - 1 whose
bit is set. -/
def freeList (ds : Nat) (bm : List Nat) : List Nat :=
  (List.range' 1 (ds - 1)).filter (fun x => bmGet bm x)

/-- Clear a list of bits in order. -/
def clearMany (bm : List Nat) (l : List Nat) : List Nat := l.foldl bmClear bm

/-- The all-zero backing container. -/
def disk0 : Disk := fun _ => 0

/-- A freshly formatted single-density VTOC image: type 2, counts, and a
bitmap with sectors 0..3 and 360..368 in use, everything else free. -/
def vtocFresh : List Nat :=
  [2, 195, 2, 231, 2, 0, 0, 0, 0, 0] ++
    ([15] ++ List.replicate 44 255 ++ [0, 127] ++ List.replicate 43 255)

/-- A directory sector whose slot 0 holds an in-use entry named T.TXT,
1 sector long, starting at sector 4; the other 7 slots are never-used. -/
def dirSectorT : List Nat :=
  [64, 1, 0, 4, 0, 84, 32, 32, 32, 32, 32, 32, 32, 84, 88, 84] ++
    List.replicate 112 0

/-- Empty formatted single-density volume (VTOC only, no files). -/
def cdiskEmpty : Disk := writeSector disk0 360 vtocFresh

/-- Volume holding the single file t.txt at sector 4 (zero VTOC: every
sector marked in use). -/
def cdiskT : Disk := writeSector disk0 361 dirSectorT

/-- The external rendering of the stored name T TXT: the lower-case
string t.txt. -/
def tname : List Nat := [116, 46, 116, 120, 116]

/-- The upper-case request T.TXT. -/
def tnameUpper : List Nat := [84, 46, 84, 88, 84]

/-- The one-letter name t. -/
def nameT : List Nat := [116]

/-- The volume cdiskT after find_file has tombstoned t.txt. -/
def cdiskTdel : Disk := ((find_file cdiskT tname true).getD (0, disk0)).2

/-- A backing store on which every read fails. -/
def storeDead : Store := fun _ => none

/- ### Bit-level helper lemmas -/

theorem land_two_pow_ne (b k : Nat) : (b &&& (1 <<< k) != 0) = b.testBit k := by
  have h1 : (1 : Nat) <<< k = 2 ^ k := by rw [Nat.shiftLeft_eq, Nat.one_mul]
  rw [h1]
  cases hb : b.testBit k with
  | true =>
    have hne : b &&& 2 ^ k ≠ 0 := by
      intro h0
      have h2 := congrArg (fun z => Nat.testBit z k) h0
      simp [Nat.testBit_and, hb] at h2
    simp [hne]
  | false =>
    have hz : b &&& 2 ^ k = 0 := by
      apply Nat.eq_of_testBit_eq
      intro j
      rw [Nat.testBit_and, Nat.zero_testBit]
      rcases eq_or_ne k j with h | h
      · subst h; simp [hb]
      · simp [Nat.testBit_two_pow, h]
    simp [hz]

theorem and_seven (x : Nat) : x &&& 7 = x % 8 := by
  have h : (7 : Nat) = 2 ^ 3 - 1 := by norm_num
  rw [h, Nat.and_pow_two_sub_one_eq_mod]

theorem and_three (x : Nat) : x &&& 3 = x % 4 := by
  have h : (3 : Nat) = 2 ^ 2 - 1 := by norm_num
  rw [h, Nat.and_pow_two_sub_one_eq_mod]

theorem shiftRight_three (x : Nat) : x >>> 3 = x / 8 := by
  rw [Nat.shiftRight_eq_div_pow]

theorem bmGet_eq_testBit (bm : List Nat) (x : Nat) :
    bmGet bm x = (bm.getD (x / 8) 0).testBit (7 - x % 8) := by
  unfold bmGet
  rw [land_two_pow_ne, shiftRight_three, and_seven]

theorem getD_set_nat (l : List Nat) (i j v : Nat) :
    (l.set i v).getD j 0 = if i = j ∧ i < l.length then v else l.getD j 0 := by
  rw [List.getD_eq_getElem?_getD, List.getD_eq_getElem?_getD, List.getElem?_set]
  by_cases h : i = j
  · subst h
    by_cases h2 : i < l.length
    · simp [h2]
    · simp [h2, List.getElem?_eq_none (Nat.le_of_not_lt h2)]
  · simp [h]

theorem getD_out_of_range (l : List Nat) (j : Nat) (h : l.length ≤ j) :
    l.getD j 0 = 0 := by
  rw [List.getD_eq_getElem?_getD, List.getElem?_eq_none h]
  rfl

theorem bmGet_bmClear (bm : List Nat) (x y : Nat) :
    bmGet (bmClear bm x) y = if y = x then false else bmGet bm y := by
  rw [bmGet_eq_testBit, bmGet_eq_testBit]
  unfold bmClear
  rw [shiftRight_three, and_seven, getD_set_nat]
  have h1 : (1 : Nat) <<< (7 - x % 8) = 2 ^ (7 - x % 8) := by
    rw [Nat.shiftLeft_eq, Nat.one_mul]
  have h255 : (255 : Nat) = 2 ^ 8 - 1 := by norm_num
  by_cases hb : x / 8 = y / 8 ∧ x / 8 < bm.length
  · rw [if_pos hb]
    rw [h1, h255]
    rw [Nat.testBit_and, Nat.testBit_xor, Nat.testBit_two_pow_sub_one,
      Nat.testBit_two_pow]
    have hky : 7 - y % 8 < 8 := by omega
    rw [decide_eq_true hky, Bool.true_xor]
    by_cases hyx : y = x
    · subst hyx
      simp
    · have hmod : y % 8 ≠ x % 8 := by
        have hdy := Nat.div_add_mod y 8
        have hdx := Nat.div_add_mod x 8
        intro hc
        exact hyx (by omega)
      have hne2 : 7 - x % 8 ≠ 7 - y % 8 := by
        have : x % 8 < 8 := Nat.mod_lt _ (by norm_num)
        have : y % 8 < 8 := Nat.mod_lt _ (by norm_num)
        omega
      rw [decide_eq_false hne2]
      rw [if_neg hyx, hb.1]
      simp
  · rw [if_neg hb]
    by_cases hyx : y = x
    · subst hyx
      rw [if_pos rfl]
      have hlen : bm.length ≤ y / 8 := by
        rcases Nat.lt_or_ge (y / 8) bm.length with h | h
        · exact absurd ⟨rfl, h⟩ hb
        · exact h
      rw [getD_out_of_range bm (y / 8) hlen]
      simp
    · rw [if_neg hyx]

/- ### Scan and filter lemmas for the allocator -/

theorem find?_eq_head?_filter (p : Nat → Bool) (l : List Nat) :
    l.find? p = (l.filter p).head? := by
  induction l with
  | nil => rfl
  | cons a t ih =>
    rw [List.find?_cons, List.filter_cons]
    cases ha : p a
    · exact ih
    · rfl

theorem filter_bne_of_filter_cons (p : Nat → Bool) (l : List Nat) :
    ∀ (x : Nat) (t : List Nat), l.Nodup → l.filter p = x :: t →
      l.filter (fun y => p y && (y != x)) = t := by
  induction l with
  | nil => intro x t _ h; simp at h
  | cons a l2 ih =>
    intro x t hnd h
    rw [List.nodup_cons] at hnd
    cases ha : p a
    · rw [List.filter_cons_of_neg (by simp [ha])] at h
      rw [List.filter_cons_of_neg (by simp [ha])]
      exact ih x t hnd.2 h
    · rw [List.filter_cons_of_pos ha] at h
      obtain ⟨rfl, rfl⟩ : a = x ∧ l2.filter p = t := by
        rw [List.cons.injEq] at h
        exact h
      rw [List.filter_cons_of_neg (by simp [ha])]
      apply List.filter_congr
      intro y hy
      have hya : y ≠ a := fun hc => hnd.1 (hc ▸ hy)
      simp [ha, hya]

theorem clearMany_cons (bm : List Nat) (a : Nat) (t : List Nat) :
    clearMany bm (a :: t) = clearMany (bmClear bm a) t := rfl

theorem bmGet_clearMany (y : Nat) (l : List Nat) : ∀ bm : List Nat,
    bmGet (clearMany bm l) y = if y ∈ l then false else bmGet bm y := by
  induction l with
  | nil => intro bm; simp [clearMany]
  | cons a t ih =>
    intro bm
    rw [clearMany_cons, ih, bmGet_bmClear]
    by_cases h1 : y ∈ t <;> by_cases h2 : y = a <;>
      simp [h1, h2, List.mem_cons]

theorem freeList_nodup (ds : Nat) (bm : List Nat) : (freeList ds bm).Nodup :=
  List.Nodup.sublist (List.filter_sublist _) (List.nodup_range' 1 (ds - 1))

theorem freeList_pairwise (ds : Nat) (bm : List Nat) :
    (freeList ds bm).Pairwise (· < ·) :=
  (List.pairwise_lt_range' 1 (ds - 1)).filter _

theorem firstFreeSect_eq (ds : Nat) (bm : List Nat) :
    firstFreeSect ds bm = (freeList ds bm).head? :=
  find?_eq_head?_filter _ _

theorem freeList_bmClear (ds : Nat) (bm : List Nat) (x : Nat) (t : List Nat)
    (h : freeList ds bm = x :: t) : freeList ds (bmClear bm x) = t := by
  have h1 : freeList ds (bmClear bm x) =
      (List.range' 1 (ds - 1)).filter (fun y => bmGet bm y && (y != x)) := by
    unfold freeList
    apply List.filter_congr
    intro y _
    rw [bmGet_bmClear]
    by_cases hy : y = x <;> simp [hy]
  rw [h1]
  exact filter_bne_of_filter_cons _ _ x t (List.nodup_range' 1 (ds - 1)) h

/-- Full characterization of alloc_space: it succeeds exactly when the
requested count fits in the free list, the chosen sectors are the first
n free ones in scan order, and the cleared bits are exactly the chosen
prefix (the whole free list when the allocation fails). -/
theorem alloc_space_eq (ds : Nat) : ∀ (n : Nat) (bm : List Nat),
    alloc_space ds bm n =
      (if n ≤ (freeList ds bm).length then some ((freeList ds bm).take n)
       else none,
       clearMany bm ((freeList ds bm).take n)) := by
  intro n
  induction n with
  | zero =>
    intro bm
    simp [alloc_space, clearMany]
  | succ n ih =>
    intro bm
    have hstep : alloc_space ds bm (n + 1) =
        match firstFreeSect ds bm with
        | none => (none, bm)
        | some x =>
          match alloc_space ds (bmClear bm x) n with
          | (some l, bm2) => (some (x :: l), bm2)
          | (none, bm2) => (none, bm2) := rfl
    rw [hstep, firstFreeSect_eq]
    cases hfl : freeList ds bm with
    | nil =>
      simp [hfl, clearMany]
    | cons x t =>
      rw [List.head?_cons]
      show (match alloc_space ds (bmClear bm x) n with
            | (some l, bm2) => (some (x :: l), bm2)
            | (none, bm2) => (none, bm2)) = _
      have hrec := ih (bmClear bm x)
      rw [freeList_bmClear ds bm x t hfl] at hrec
      rw [hrec]
      by_cases hn : n ≤ t.length
      · rw [if_pos hn]
        have hn2 : n + 1 ≤ (x :: t).length := by simp; omega
        rw [if_pos hn2, List.take_succ_cons, clearMany_cons]
      · rw [if_neg hn]
        have hn2 : ¬ (n + 1 ≤ (x :: t).length) := by simp; omega
        rw [if_neg hn2, List.take_succ_cons, clearMany_cons]

/-- C2: alloc_space scans linearly from sector index 1 upward and, when
enough free bits exist, returns exactly the n lowest-numbered free
indices in ascending order, clearing each selected bit in the in-memory
bitmap; when fewer than n free indices exist in range it fails (the
InsufficientSpace result), and on that failure path the free bits found
so far (every free bit in range) have already been cleared in the
in-memory bitmap. -/
theorem C2_alloc_space_spec (ds : Nat) (bm : List Nat) (n : Nat) :
    (n ≤ (freeList ds bm).length →
      (alloc_space ds bm n).1 = some ((freeList ds bm).take n) ∧
      ((freeList ds bm).take n).Pairwise (· < ·) ∧
      (∀ s ∈ (freeList ds bm).take n, bmGet bm s = true ∧
        bmGet (alloc_space ds bm n).2 s = false)) ∧
    ((freeList ds bm).length < n →
      (alloc_space ds bm n).1 = none ∧
      (alloc_space ds bm n).2 = clearMany bm (freeList ds bm)) := by
  constructor
  · intro hn
    rw [alloc_space_eq, if_pos hn]
    refine ⟨rfl, (freeList_pairwise ds bm).take, ?_⟩
    intro s hs
    have hmem : s ∈ freeList ds bm := List.mem_of_mem_take hs
    have hget : bmGet bm s = true := (List.mem_filter.mp hmem).2
    refine ⟨hget, ?_⟩
    rw [bmGet_clearMany, if_pos hs]
  · intro hn
    rw [alloc_space_eq, if_neg (by omega)]
    have htake : (freeList ds bm).take n = freeList ds bm :=
      List.take_of_length_le (by omega)
    rw [htake]
    exact ⟨rfl, rfl⟩

/-- Witness for C2 at a concrete bitmap: one byte 0x0F frees sectors
4..7; allocating 2 returns the first two. -/
theorem C2_witness :
    (2 ≤ (freeList 16 [15]).length) ∧
    (alloc_space 16 [15] 2).1 = some ((freeList 16 [15]).take 2) :=
  ⟨by decide, ((C2_alloc_space_spec 16 [15] 2).1 (by decide)).1⟩

/-- C10: every sector index returned by alloc_space lies between 1 and
disk_size - 1: the scan never selects sector 0 nor an index at or beyond
the addressable range, whatever the bitmap contents. -/
theorem C10_alloc_space_bounds (ds : Nat) (bm : List Nat) (n : Nat)
    (l : List Nat) (h : (alloc_space ds bm n).1 = some l) :
    ∀ s ∈ l, 1 ≤ s ∧ s ≤ ds - 1 := by
  rw [alloc_space_eq] at h
  by_cases hn : n ≤ (freeList ds bm).length
  · rw [if_pos hn] at h
    have hl : l = (freeList ds bm).take n := by
      exact (Option.some.injEq _ _ ▸ h.symm)
    subst hl
    intro s hs
    have hmem : s ∈ freeList ds bm := List.mem_of_mem_take hs
    have hrange : s ∈ List.range' 1 (ds - 1) := (List.mem_filter.mp hmem).1
    rw [List.mem_range'_1] at hrange
    omega
  · rw [if_neg hn] at h
    simp at h

/-- Witness for C10 at a concrete bitmap whose bit for sector 0 is also
free (byte 0xFF): sector 0 is still never chosen. -/
theorem C10_witness :
    (alloc_space 16 [255] 2).1 = some [1, 2] ∧
    (∀ s ∈ [1, 2], 1 ≤ s ∧ s ≤ 15) :=
  ⟨by decide, C10_alloc_space_bounds 16 [255] 2 [1, 2] (by decide)⟩

/- ### Sector read/write lemmas -/

theorem readSector_length (d : Disk) (s : Nat) : (readSector d s).length = 128 := by
  simp [readSector]

theorem getD_map_range (f : Nat → Nat) (n i : Nat) (hi : i < n) :
    ((List.range n).map f).getD i 0 = f i := by
  rw [List.getD_eq_getElem?_getD, List.getElem?_map, List.getElem?_range hi]
  rfl

theorem readSector_writeSector_self (d : Disk) (s : Nat) (buf : List Nat) :
    readSector (writeSector d s buf) s = normBuf buf := by
  unfold readSector writeSector normBuf
  apply List.map_congr_left
  intro i hi
  rw [List.mem_range] at hi
  rw [if_pos ⟨Nat.le_add_right _ _, by omega⟩, Nat.add_sub_cancel_left]

theorem readSector_writeSector_ne (d : Disk) (s : Nat) (buf : List Nat)
    (s2 : Nat) (hs : 1 ≤ s) (hs2 : 1 ≤ s2) (hne : s2 ≠ s) :
    readSector (writeSector d s buf) s2 = readSector d s2 := by
  unfold readSector writeSector
  apply List.map_congr_left
  intro i hi
  rw [List.mem_range] at hi
  rw [if_neg]
  intro hcond
  apply hne
  unfold sectBase at hcond
  omega

theorem applyLog_cons (d : Disk) (q : Nat × List Nat)
    (log : List (Nat × List Nat)) :
    applyLog d (q :: log) = applyLog (writeSector d q.1 q.2) log := rfl

theorem readSector_applyLog_notin (log : List (Nat × List Nat)) :
    ∀ (d : Disk) (s : Nat), 1 ≤ s → (∀ p ∈ log, 1 ≤ p.1 ∧ p.1 ≠ s) →
      readSector (applyLog d log) s = readSector d s := by
  induction log with
  | nil => intro d s _ _; rfl
  | cons q rest ih =>
    intro d s hs hp
    rw [applyLog_cons, ih _ s hs (fun p hp2 => hp p (List.mem_cons_of_mem _ hp2))]
    exact readSector_writeSector_ne d q.1 q.2 s (hp q (List.mem_cons_self _ _)).1
      hs (Ne.symm (hp q (List.mem_cons_self _ _)).2)

theorem readSector_applyLog_mem (log : List (Nat × List Nat)) : ∀ d : Disk,
    (log.map Prod.fst).Nodup → (∀ p ∈ log, 1 ≤ p.1) →
    ∀ p ∈ log, readSector (applyLog d log) p.1 = normBuf p.2 := by
  induction log with
  | nil => intro d _ _ p hp; cases hp
  | cons q rest ih =>
    intro d hnd h1 p hp
    rw [List.map_cons, List.nodup_cons] at hnd
    rcases List.mem_cons.mp hp with rfl | hp2
    · rw [applyLog_cons]
      have hnotin : ∀ p2 ∈ rest, 1 ≤ p2.1 ∧ p2.1 ≠ p.1 := by
        intro p2 hp2
        refine ⟨h1 p2 (List.mem_cons_of_mem _ hp2), ?_⟩
        intro hc
        exact hnd.1 (hc ▸ List.mem_map_of_mem Prod.fst hp2)
      rw [readSector_applyLog_notin rest _ p.1 (h1 p (List.mem_cons_self _ _)) hnotin]
      exact readSector_writeSector_self _ _ _
    · rw [applyLog_cons]
      exact ih _ hnd.2 (fun p2 hp3 => h1 p2 (List.mem_cons_of_mem _ hp3)) p hp2

/- ### Trailer byte lemmas -/

theorem trailer_and_three (a fn : Nat) (ha : a < 4) :
    ((a % 256 ||| fn <<< 2) % 256) &&& 3 = a := by
  have h3 : (3 : Nat) = 2 ^ 2 - 1 := by norm_num
  rw [h3]
  apply Nat.eq_of_testBit_eq
  intro j
  rw [Nat.testBit_and, Nat.testBit_two_pow_sub_one]
  rw [show (256 : Nat) = 2 ^ 8 from by norm_num, Nat.testBit_mod_two_pow,
    Nat.testBit_or, Nat.testBit_mod_two_pow, Nat.testBit_shiftLeft]
  by_cases hj : j < 2
  · have hj8 : j < 8 := by omega
    have hns : ¬ (j ≥ 2) := by omega
    simp [hj, hj8, hns]
  · have h4 : (4 : Nat) ≤ 2 ^ j := by
      calc (4 : Nat) = 2 ^ 2 := by norm_num
      _ ≤ 2 ^ j := Nat.pow_le_pow_right (by norm_num) (by omega)
    have hja : a.testBit j = false :=
      Nat.testBit_lt_two_pow (Nat.lt_of_lt_of_le ha h4)
    simp [hj, hja]

theorem trailer_and_three_zero (fn : Nat) :
    (((0 : Nat) ||| fn <<< 2) % 256) &&& 3 = 0 := by
  have h := trailer_and_three 0 fn (by norm_num)
  simpa using h

theorem trailer_shift_fn (a fn : Nat) (ha : a < 4) (hfn : fn < 64) :
    (((a % 256 ||| fn <<< 2) % 256) >>> 2) &&& 63 = fn := by
  have h63 : (63 : Nat) = 2 ^ 6 - 1 := by norm_num
  rw [h63]
  apply Nat.eq_of_testBit_eq
  intro j
  rw [Nat.testBit_and, Nat.testBit_two_pow_sub_one, Nat.testBit_shiftRight]
  rw [show (256 : Nat) = 2 ^ 8 from by norm_num, Nat.testBit_mod_two_pow,
    Nat.testBit_or, Nat.testBit_mod_two_pow, Nat.testBit_shiftLeft]
  have h4 : (4 : Nat) ≤ 2 ^ (2 + j) := by
    calc (4 : Nat) = 2 ^ 2 := by norm_num
    _ ≤ 2 ^ (2 + j) := Nat.pow_le_pow_right (by norm_num) (by omega)
  have hja : a.testBit (2 + j) = false :=
    Nat.testBit_lt_two_pow (Nat.lt_of_lt_of_le ha h4)
  by_cases hj : j < 6
  · have hj8 : 2 + j < 8 := by omega
    have hge : 2 + j ≥ 2 := by omega
    simp [hj, hj8, hge, hja, Nat.add_sub_cancel_left]
  · have h64 : (64 : Nat) ≤ 2 ^ j := by
      calc (64 : Nat) = 2 ^ 6 := by norm_num
      _ ≤ 2 ^ j := Nat.pow_le_pow_right (by norm_num) (by omega)
    have hfj : fn.testBit j = false :=
      Nat.testBit_lt_two_pow (Nat.lt_of_lt_of_le hfn h64)
    simp [hj, hja, hfj]

theorem trailer_shift_fn_zero (fn : Nat) (hfn : fn < 64) :
    ((((0 : Nat) ||| fn <<< 2) % 256) >>> 2) &&& 63 = fn := by
  have h := trailer_shift_fn 0 fn (by norm_num) hfn
  simpa using h

theorem shiftRight_eight (x : Nat) : x >>> 8 = x / 256 := by
  rw [Nat.shiftRight_eq_div_pow]

/- ### write_sectors lemmas -/

theorem write_sectors_map_fst (fn : Nat) : ∀ (l buf : List Nat) (size : Nat),
    (write_sectors fn buf l size).map Prod.fst = l := by
  intro l
  induction l with
  | nil => intro buf size; rfl
  | cons s rest ih =>
    intro buf size
    cases rest with
    | nil => rfl
    | cons s2 rest2 =>
      show (s :: (write_sectors fn (buf.drop 125) (s2 :: rest2) (size - 125)).map
        Prod.fst) = s :: s2 :: rest2
      rw [ih]

theorem getD_append_trailer (c : List Nat) (b0 b1 b2 : Nat) (hc : c.length = 125) :
    (c ++ [b0, b1, b2]).getD 125 0 = b0 ∧ (c ++ [b0, b1, b2]).getD 126 0 = b1 ∧
      (c ++ [b0, b1, b2]).getD 127 0 = b2 := by
  refine ⟨?_, ?_, ?_⟩
  · rw [List.getD_eq_getElem?_getD, List.getElem?_append_right (by omega), hc]
    rfl
  · rw [List.getD_eq_getElem?_getD, List.getElem?_append_right (by omega), hc]
    rfl
  · rw [List.getD_eq_getElem?_getD, List.getElem?_append_right (by omega), hc]
    rfl

theorem content_length (buf : List Nat) :
    ((List.range 125).map (fun i => buf.getD i 0)).length = 125 := by
  simp

/-- Positional specification of the write loop of write_file: the i-th
putsect call carries the i-th allocated sector; non-terminal sectors get
next pointer l[i+1] and byte count 125, the terminal sector gets next
pointer 0 and byte count size - 125 * i; every sector gets the file
number tag and the 125 content bytes at offset 125 * i of the buffer. -/
theorem write_sectors_spec (fn : Nat) : ∀ (l buf : List Nat) (size : Nat),
    fn < 64 → (∀ s ∈ l, s < 1024) → size ≤ 125 * l.length →
    ∀ i, i < l.length →
      ((i + 1 < l.length →
        nextOf ((write_sectors fn buf l size).getD i (0, [])).2 = l.getD (i + 1) 0 ∧
        bytesOf ((write_sectors fn buf l size).getD i (0, [])).2 = 125) ∧
       (i + 1 = l.length →
        nextOf ((write_sectors fn buf l size).getD i (0, [])).2 = 0 ∧
        bytesOf ((write_sectors fn buf l size).getD i (0, [])).2 = size - 125 * i) ∧
       fileNoOf ((write_sectors fn buf l size).getD i (0, [])).2 = fn ∧
       (((write_sectors fn buf l size).getD i (0, [])).2).take 125 =
         (List.range 125).map (fun j => buf.getD (125 * i + j) 0)) := by
  intro l
  induction l with
  | nil =>
    intro buf size _ _ _ i hi
    simp at hi
  | cons s rest ih =>
    intro buf size hfn hlt hsz i hi
    cases rest with
    | nil =>
      have hi0 : i = 0 := by simp at hi; omega
      subst hi0
      have hdata := getD_append_trailer ((List.range 125).map (fun j => buf.getD j 0))
        (((0 : Nat) ||| (fn <<< 2)) % 256) 0 (size % 256) (content_length buf)
      refine ⟨?_, ?_, ?_, ?_⟩
      · intro h
        simp at h
      · intro _
        constructor
        · show nextOf ((List.range 125).map (fun j => buf.getD j 0) ++
            [((0 : Nat) ||| (fn <<< 2)) % 256, 0, size % 256]) = 0
          unfold nextOf
          rw [hdata.2.1, hdata.1, trailer_and_three_zero]
        · show bytesOf ((List.range 125).map (fun j => buf.getD j 0) ++
            [((0 : Nat) ||| (fn <<< 2)) % 256, 0, size % 256]) = size - 125 * 0
          unfold bytesOf
          rw [hdata.2.2]
          have hsz1 : size ≤ 125 := by simp at hsz; omega
          rw [Nat.mod_eq_of_lt (by omega)]
          omega
      · show fileNoOf ((List.range 125).map (fun j => buf.getD j 0) ++
          [((0 : Nat) ||| (fn <<< 2)) % 256, 0, size % 256]) = fn
        unfold fileNoOf
        rw [hdata.1, trailer_shift_fn_zero fn hfn]
      · show (((List.range 125).map (fun j => buf.getD j 0) ++
          [((0 : Nat) ||| (fn <<< 2)) % 256, 0, size % 256]).take 125) = _
        rw [List.take_left' (content_length buf)]
        apply List.map_congr_left
        intro j _
        simp
    | cons s2 rest2 =>
      cases i with
      | zero =>
        have hs2lt : s2 < 1024 := hlt s2 (List.mem_cons_of_mem _ (List.mem_cons_self _ _))
        have ha4 : s2 >>> 8 < 4 := by
          rw [shiftRight_eight]
          omega
        have hdata := getD_append_trailer ((List.range 125).map (fun j => buf.getD j 0))
          ((((s2 >>> 8) % 256) ||| (fn <<< 2)) % 256) (s2 % 256) 125 (content_length buf)
        refine ⟨?_, ?_, ?_, ?_⟩
        · intro _
          constructor
          · show nextOf ((List.range 125).map (fun j => buf.getD j 0) ++
              [(((s2 >>> 8) % 256) ||| (fn <<< 2)) % 256, s2 % 256, 125]) = _
            unfold nextOf
            rw [hdata.2.1, hdata.1, trailer_and_three (s2 >>> 8) fn ha4,
              shiftRight_eight, List.getD_cons_succ, List.getD_cons_zero,
              Nat.mod_add_div]
          · show bytesOf ((List.range 125).map (fun j => buf.getD j 0) ++
              [(((s2 >>> 8) % 256) ||| (fn <<< 2)) % 256, s2 % 256, 125]) = 125
            unfold bytesOf
            rw [hdata.2.2]
        · intro h
          simp at h
        · show fileNoOf ((List.range 125).map (fun j => buf.getD j 0) ++
            [(((s2 >>> 8) % 256) ||| (fn <<< 2)) % 256, s2 % 256, 125]) = fn
          unfold fileNoOf
          rw [hdata.1, trailer_shift_fn (s2 >>> 8) fn ha4 hfn]
        · show (((List.range 125).map (fun j => buf.getD j 0) ++
            [(((s2 >>> 8) % 256) ||| (fn <<< 2)) % 256, s2 % 256, 125]).take 125) = _
          rw [List.take_left' (content_length buf)]
          apply List.map_congr_left
          intro j _
          simp
      | succ i2 =>
        have hlen : i2 < (s2 :: rest2).length := by simp at hi ⊢; omega
        have hsz2 : size - 125 ≤ 125 * (s2 :: rest2).length := by
          simp at hsz ⊢
          omega
        have hrec := ih (buf.drop 125) (size - 125) hfn
          (fun x hx => hlt x (List.mem_cons_of_mem _ hx)) hsz2 i2 hlen
        have hdrop : ∀ j : Nat, (buf.drop 125).getD (125 * i2 + j) 0 =
            buf.getD (125 * (i2 + 1) + j) 0 := by
          intro j
          rw [List.getD_eq_getElem?_getD, List.getD_eq_getElem?_getD,
            List.getElem?_drop, show 125 + (125 * i2 + j) = 125 * (i2 + 1) + j
              from by omega]
        refine ⟨?_, ?_, ?_, ?_⟩
        · intro h
          have h2 : i2 + 1 < (s2 :: rest2).length := by simp at h ⊢; omega
          have := hrec.1 h2
          constructor
          · rw [show (write_sectors fn buf (s :: s2 :: rest2) size).getD (i2 + 1) (0, []) =
              (write_sectors fn (buf.drop 125) (s2 :: rest2) (size - 125)).getD i2 (0, [])
              from List.getD_cons_succ, this.1]
            simp
          · rw [show (write_sectors fn buf (s :: s2 :: rest2) size).getD (i2 + 1) (0, []) =
              (write_sectors fn (buf.drop 125) (s2 :: rest2) (size - 125)).getD i2 (0, [])
              from List.getD_cons_succ, this.2]
        · intro h
          have h2 : i2 + 1 = (s2 :: rest2).length := by simp at h ⊢; omega
          have := hrec.2.1 h2
          constructor
          · rw [show (write_sectors fn buf (s :: s2 :: rest2) size).getD (i2 + 1) (0, []) =
              (write_sectors fn (buf.drop 125) (s2 :: rest2) (size - 125)).getD i2 (0, [])
              from List.getD_cons_succ, this.1]
          · rw [show (write_sectors fn buf (s :: s2 :: rest2) size).getD (i2 + 1) (0, []) =
              (write_sectors fn (buf.drop 125) (s2 :: rest2) (size - 125)).getD i2 (0, [])
              from List.getD_cons_succ, this.2]
            omega
        · rw [show (write_sectors fn buf (s :: s2 :: rest2) size).getD (i2 + 1) (0, []) =
            (write_sectors fn (buf.drop 125) (s2 :: rest2) (size - 125)).getD i2 (0, [])
            from List.getD_cons_succ]
          exact hrec.2.2.1
        · rw [show (write_sectors fn buf (s :: s2 :: rest2) size).getD (i2 + 1) (0, []) =
            (write_sectors fn (buf.drop 125) (s2 :: rest2) (size - 125)).getD i2 (0, [])
            from List.getD_cons_succ, hrec.2.2.2]
          apply List.map_congr_left
          intro j _
          exact hdrop j

/-- C3: write_file encodes the file across the pre-allocated ordered
sector list: every non-terminal sector is written with 125 content bytes,
byte count 125 and a next-sector pointer equal to the following list
element; the terminal sector is written with next pointer 0 and byte
count equal to the file's remaining byte length; every sector carries the
file-number tag in the upper six bits of trailer byte 125; and the first
sector returned by write_file is the first element of the list. -/
theorem C3_write_file_encoding (ds fn size : Nat) (bm buf l : List Nat)
    (hne : l ≠ []) (hfn : fn < 64) (hl : ∀ s ∈ l, s < 1024)
    (hsz : size ≤ 125 * l.length)
    (halloc : (alloc_space ds bm l.length).1 = some l) :
    (write_file ds bm buf l.length fn size).1 =
      some (l.headD 0, write_sectors fn buf l size) ∧
    (write_sectors fn buf l size).map Prod.fst = l ∧
    (∀ i, i + 1 < l.length →
      nextOf ((write_sectors fn buf l size).getD i (0, [])).2 = l.getD (i + 1) 0 ∧
      bytesOf ((write_sectors fn buf l size).getD i (0, [])).2 = 125) ∧
    (nextOf ((write_sectors fn buf l size).getD (l.length - 1) (0, [])).2 = 0 ∧
      bytesOf ((write_sectors fn buf l size).getD (l.length - 1) (0, [])).2 =
        size - 125 * (l.length - 1)) ∧
    (∀ i, i < l.length →
      fileNoOf ((write_sectors fn buf l size).getD i (0, [])).2 = fn ∧
      (((write_sectors fn buf l size).getD i (0, [])).2).take 125 =
        (List.range 125).map (fun j => buf.getD (125 * i + j) 0)) := by
  have hpos : 0 < l.length := List.length_pos.mpr hne
  refine ⟨?_, write_sectors_map_fst fn l buf size, ?_, ?_, ?_⟩
  · have hpair : alloc_space ds bm l.length =
        (some l, (alloc_space ds bm l.length).2) := by
      rw [← halloc]
    unfold write_file
    rw [hpair]
  · intro i hi
    exact (write_sectors_spec fn l buf size hfn hl hsz i (by omega)).1 hi
  · exact (write_sectors_spec fn l buf size hfn hl hsz (l.length - 1)
      (by omega)).2.1 (by omega)
  · intro i hi
    exact ⟨(write_sectors_spec fn l buf size hfn hl hsz i hi).2.2.1,
      (write_sectors_spec fn l buf size hfn hl hsz i hi).2.2.2⟩

/-- Witness for C3 at a concrete two-sector file. -/
theorem C3_witness :
    ((250 : Nat) ≤ 125 * ([4, 5] : List Nat).length) ∧
    (alloc_space 16 [15] 2).1 = some [4, 5] ∧
    (write_file 16 [15] (List.replicate 250 7) 2 3 250).1 =
      some (([4, 5] : List Nat).headD 0,
        write_sectors 3 (List.replicate 250 7) [4, 5] 250) ∧
    nextOf ((write_sectors 3 (List.replicate 250 7) [4, 5] 250).getD 0 (0, [])).2 = 5 ∧
    bytesOf ((write_sectors 3 (List.replicate 250 7) [4, 5] 250).getD 1 (0, [])).2 =
      250 - 125 * 1 :=
  ⟨by decide, by decide,
    (C3_write_file_encoding 16 3 250 [15] (List.replicate 250 7) [4, 5]
      (by decide) (by decide) (by decide) (by decide) (by decide)).1,
    ((C3_write_file_encoding 16 3 250 [15] (List.replicate 250 7) [4, 5]
      (by decide) (by decide) (by decide) (by decide) (by decide)).2.2.1 0
      (by decide)).1,
    (C3_write_file_encoding 16 3 250 [15] (List.replicate 250 7) [4, 5]
      (by decide) (by decide) (by decide) (by decide) (by decide)).2.2.2.1.2⟩

/- ### read_file chain lemmas -/

theorem mod256_mod256 (x : Nat) : x % 256 % 256 = x % 256 :=
  Nat.mod_mod_of_dvd x (dvd_refl 256)

theorem normBuf_getD (b : List Nat) (i : Nat) (hi : i < 128) :
    (normBuf b).getD i 0 = b.getD i 0 % 256 :=
  getD_map_range _ 128 i hi

theorem normBuf_take (b : List Nat) (k : Nat) (hk : k ≤ 128) :
    (normBuf b).take k = (List.range k).map (fun i => b.getD i 0 % 256) := by
  unfold normBuf
  rw [← List.map_take, List.take_range, Nat.min_eq_left hk]

theorem content_getD (buf tr : List Nat) (i : Nat) (hi : i < 125) :
    ((List.range 125).map (fun j => buf.getD j 0) ++ tr).getD i 0 =
      buf.getD i 0 := by
  rw [List.getD_append _ _ _ _ (by rw [content_length]; omega)]
  exact getD_map_range _ 125 i hi

/-- One unfolding step of read_file for a nonzero sector. -/
theorem read_file_step (d : Disk) (fuel s : Nat) (hs : 1 ≤ s) :
    read_file d false (fuel + 1) s =
      if (readSector d s).getD 126 0 + 256 * ((readSector d s).getD 125 0 &&& 3) = 0
      then Except.ok ((readSector d s).take ((readSector d s).getD 127 0))
      else
        match read_file d false fuel
          ((readSector d s).getD 126 0 + 256 * ((readSector d s).getD 125 0 &&& 3)) with
        | Except.ok r =>
          Except.ok ((readSector d s).take ((readSector d s).getD 127 0) ++ r)
        | Except.error e => Except.error e := by
  show (if s = 0 then _ else _) = _
  rw [if_neg (by omega : ¬ s = 0)]
  rfl

/-- Reading back a chain laid out by write_sectors returns the first
size bytes of the buffer. -/
theorem read_file_chain (d : Disk) (fn : Nat) :
    ∀ (l buf : List Nat) (size fuel : Nat),
    l ≠ [] → (∀ s ∈ l, 1 ≤ s ∧ s < 1024) → fn < 64 →
    125 * (l.length - 1) < size → size ≤ 125 * l.length →
    (∀ j, j < size → buf.getD j 0 < 256) →
    (∀ p ∈ write_sectors fn buf l size, readSector d p.1 = normBuf p.2) →
    l.length ≤ fuel →
    read_file d false fuel (l.headD 0) =
      Except.ok ((List.range size).map (fun j => buf.getD j 0)) := by
  intro l
  induction l with
  | nil => intro buf size fuel hne; exact absurd rfl hne
  | cons s rest ih =>
    intro buf size fuel _ hmem hfn hlo hhi hbyte hread hfuel
    obtain ⟨f2, rfl⟩ : ∃ f2, fuel = f2 + 1 := by
      cases fuel with
      | zero => simp at hfuel
      | succ f => exact ⟨f, rfl⟩
    have hs1 : 1 ≤ s := (hmem s (List.mem_cons_self _ _)).1
    rw [show (s :: rest).headD 0 = s from rfl]
    rw [read_file_step d f2 s hs1]
    cases rest with
    | nil =>
      have hsz125 : size ≤ 125 := by simp at hhi; omega
      have hrs : readSector d s =
          normBuf ((List.range 125).map (fun j => buf.getD j 0) ++
            [((0 : Nat) ||| (fn <<< 2)) % 256, 0, size % 256]) :=
        hread ((s, (List.range 125).map (fun j => buf.getD j 0) ++
            [((0 : Nat) ||| (fn <<< 2)) % 256, 0, size % 256]))
          (List.mem_cons_self _ _)
      have hd := getD_append_trailer ((List.range 125).map (fun j => buf.getD j 0))
        (((0 : Nat) ||| (fn <<< 2)) % 256) 0 (size % 256) (content_length buf)
      have h126 : (readSector d s).getD 126 0 = 0 := by
        rw [hrs, normBuf_getD _ 126 (by norm_num), hd.2.1]
      have h125 : (readSector d s).getD 125 0 &&& 3 = 0 := by
        rw [hrs, normBuf_getD _ 125 (by norm_num), hd.1, mod256_mod256,
          trailer_and_three_zero]
      have h127 : (readSector d s).getD 127 0 = size := by
        rw [hrs, normBuf_getD _ 127 (by norm_num), hd.2.2, mod256_mod256,
          Nat.mod_eq_of_lt (by omega)]
      rw [h126, h125, h127]
      rw [if_pos (by norm_num)]
      congr 1
      rw [hrs, normBuf_take _ size (by omega)]
      apply List.map_congr_left
      intro i hi
      rw [List.mem_range] at hi
      rw [content_getD buf _ i (by omega), Nat.mod_eq_of_lt (hbyte i hi)]
    | cons s2 rest2 =>
      have hs2 : 1 ≤ s2 ∧ s2 < 1024 :=
        hmem s2 (List.mem_cons_of_mem _ (List.mem_cons_self _ _))
      have ha4 : s2 >>> 8 < 4 := by
        rw [shiftRight_eight]
        omega
      have h125size : 125 < size := by
        simp at hlo
        omega
      have hrs : readSector d s =
          normBuf ((List.range 125).map (fun j => buf.getD j 0) ++
            [(((s2 >>> 8) % 256) ||| (fn <<< 2)) % 256, s2 % 256, 125]) :=
        hread ((s, (List.range 125).map (fun j => buf.getD j 0) ++
            [(((s2 >>> 8) % 256) ||| (fn <<< 2)) % 256, s2 % 256, 125]))
          (List.mem_cons_self _ _)
      have hd := getD_append_trailer ((List.range 125).map (fun j => buf.getD j 0))
        ((((s2 >>> 8) % 256) ||| (fn <<< 2)) % 256) (s2 % 256) 125 (content_length buf)
      have h126 : (readSector d s).getD 126 0 = s2 % 256 := by
        rw [hrs, normBuf_getD _ 126 (by norm_num), hd.2.1, mod256_mod256]
      have h125 : (readSector d s).getD 125 0 &&& 3 = s2 / 256 := by
        rw [hrs, normBuf_getD _ 125 (by norm_num), hd.1, mod256_mod256,
          trailer_and_three (s2 >>> 8) fn ha4, shiftRight_eight]
      have h127 : (readSector d s).getD 127 0 = 125 := by
        rw [hrs, normBuf_getD _ 127 (by norm_num), hd.2.2]
      have hnext : (readSector d s).getD 126 0 +
          256 * ((readSector d s).getD 125 0 &&& 3) = s2 := by
        rw [h126, h125, Nat.mod_add_div]
      rw [hnext, h127]
      rw [if_neg (by omega)]
      have hih := ih (buf.drop 125) (size - 125) f2 (by simp)
        (fun x hx => hmem x (List.mem_cons_of_mem _ hx)) hfn
        (by simp at hlo ⊢; omega) (by simp at hhi ⊢; omega)
        (by
          intro j hj
          rw [List.getD_eq_getElem?_getD, List.getElem?_drop,
            ← List.getD_eq_getElem?_getD]
          exact hbyte (125 + j) (by omega))
        (by
          intro p hp
          exact hread p (List.mem_cons_of_mem _ hp))
        (by simp at hfuel ⊢; omega)
      rw [show (s2 :: rest2).headD 0 = s2 from rfl] at hih
      rw [hih]
      show Except.ok _ = _
      congr 1
      have htake : (readSector d s).take 125 =
          (List.range 125).map (fun j => buf.getD j 0) := by
        rw [hrs, normBuf_take _ 125 (by norm_num)]
        apply List.map_congr_left
        intro i hi
        rw [List.mem_range] at hi
        rw [content_getD buf _ i (by omega), Nat.mod_eq_of_lt (hbyte i (by omega))]
      rw [htake]
      conv_rhs => rw [show size = 125 + (size - 125) from by omega]
      rw [List.range_add, List.map_append, List.map_map]
      congr 1
      apply List.map_congr_left
      intro j _
      show (buf.drop 125).getD j 0 = buf.getD (125 + j) 0
      rw [List.getD_eq_getElem?_getD, List.getElem?_drop,
        ← List.getD_eq_getElem?_getD]

/- ### Directory scan lemmas -/

theorem find_file_eq_match (d : Disk) (name : List Nat) (del : Bool) :
    find_file d name del =
      (match find_file_pos d name with
       | none => (none : Option (Nat × Disk))
       | some (x, y) =>
         some ((decodeEntry (readSector d x) y).start,
           if del then writeSector d x ((readSector d x).set y 128) else d)) := by
  unfold find_file
  cases find_file_pos d name with
  | none => rfl
  | some p => cases p with | mk x y => rfl

theorem scan_eq_find? (d : Disk) (name : List Nat) : ∀ L : List Nat,
    (match L.findSome? (fun x =>
        ((List.range 8).find? (fun e => entryMatches (readSector d x) (16 * e) name)).map
          (fun e => (x, 16 * e))) with
     | none => (none : Option (Nat × Disk))
     | some (x, y) => some ((decodeEntry (readSector d x) y).start, d)) =
      ((L.flatMap (fun x =>
          (List.range 8).map (fun e => decodeEntry (readSector d x) (16 * e)))).find?
        (fun e => (e.flag &&& 64 != 0) && (getname e == name))).map
        (fun e => (e.start, d)) := by
  intro L
  induction L with
  | nil => rfl
  | cons x L2 ihL =>
    rw [List.findSome?_cons, List.flatMap_cons, List.find?_append, List.find?_map]
    have hpred : ((fun e => (e.flag &&& 64 != 0) && (getname e == name)) ∘
        (fun e => decodeEntry (readSector d x) (16 * e))) =
        (fun e => entryMatches (readSector d x) (16 * e) name) := rfl
    rw [hpred]
    cases hinner : (List.range 8).find?
        (fun e => entryMatches (readSector d x) (16 * e) name) with
    | none =>
      simp only [Option.map_none', Option.none_or]
      exact ihL
    | some e0 =>
      simp only [Option.map_some', Option.or_some]

/-- The character produced by lower is never an upper-case letter. -/
theorem lower_not_upper (b : Nat) : ¬ (65 ≤ lower b ∧ lower b ≤ 90) := by
  unfold lower
  split <;> omega

theorem mem_dropTrailingSpaces (l : List Nat) (c : Nat)
    (h : c ∈ dropTrailingSpaces l) : c ∈ l := by
  unfold dropTrailingSpaces at h
  rw [List.mem_reverse] at h
  have h2 := (List.dropWhile_sublist _).subset h
  rw [List.mem_reverse] at h2
  exact h2

/-- Every byte of a name produced by getname is outside the upper-case
letter range: the stored name is folded to lower case before comparison. -/
theorem getname_no_upper (e : dirent) : ∀ c ∈ getname e, ¬ (65 ≤ c ∧ c ≤ 90) := by
  intro c hc
  unfold getname at hc
  dsimp only [] at hc
  split at hc
  · have h1 := mem_dropTrailingSpaces _ _ hc
    rw [List.mem_map] at h1
    obtain ⟨b, _, rfl⟩ := h1
    exact lower_not_upper b
  · have h1 := mem_dropTrailingSpaces _ _ hc
    rcases List.mem_append.mp h1 with h2 | h2
    · rcases List.mem_append.mp h2 with h3 | h3
      · have h4 := mem_dropTrailingSpaces _ _ h3
        rw [List.mem_map] at h4
        obtain ⟨b, _, rfl⟩ := h4
        exact lower_not_upper b
      · rw [List.mem_singleton] at h3
        omega
    · rw [List.mem_map] at h2
      obtain ⟨b, _, rfl⟩ := h2
      exact lower_not_upper b

/-- C6 (corrected): find_file scans all 64 slots in storage order
(sector-major, then in-slot order) and returns the starting sector of the
first in-use entry whose stored name, folded to lower case by getname,
compares exactly equal (strcmp) with the requested name; the match is not
case-insensitive on the request: a request containing any upper-case
letter can never match, since getname never produces one. -/
theorem C6_find_file_semantics (d : Disk) (name : List Nat) :
    find_file d name false =
      ((dirEntries d).find?
        (fun e => (e.flag &&& 64 != 0) && (getname e == name))).map
        (fun e => (e.start, d)) ∧
    ((∃ c ∈ name, 65 ≤ c ∧ c ≤ 90) → find_file d name false = none) := by
  have heq : (match find_file_pos d name with
      | none => (none : Option (Nat × Disk))
      | some (x, y) => some ((decodeEntry (readSector d x) y).start, d)) =
      ((dirEntries d).find?
        (fun e => (e.flag &&& 64 != 0) && (getname e == name))).map
        (fun e => (e.start, d)) :=
    scan_eq_find? d name (List.range' 361 8)
  have hff : find_file d name false =
      ((dirEntries d).find?
        (fun e => (e.flag &&& 64 != 0) && (getname e == name))).map
        (fun e => (e.start, d)) := by
    rw [find_file_eq_match d name false]
    exact heq
  refine ⟨hff, ?_⟩
  rintro ⟨c, hcmem, hc65, hc90⟩
  rw [hff]
  have hnone : (dirEntries d).find?
      (fun e => (e.flag &&& 64 != 0) && (getname e == name)) = none := by
    rw [List.find?_eq_none]
    intro e _ hp
    rw [Bool.and_eq_true] at hp
    have hname : getname e = name := by
      have := hp.2
      exact eq_of_beq this
    exact getname_no_upper e c (hname ▸ hcmem) ⟨hc65, hc90⟩
  rw [hnone]
  rfl

/-- Witness for C6: the request T.TXT (upper case) can never be found. -/
theorem C6_witness :
    (∃ c ∈ tnameUpper, 65 ≤ c ∧ c ≤ 90) ∧
    find_file cdiskT tnameUpper false = none :=
  ⟨by decide, (C6_find_file_semantics cdiskT tnameUpper).2 (by decide)⟩

/-- Counterexample to C6 as stated: the volume stores the file whose
getname rendering is t.txt; the request T.TXT, differing from the stored
name only in letter case, is not found, while the all-lower-case request
t.txt is. -/
theorem C6_counterexample :
    ((decodeEntry (readSector cdiskT 361) 0).flag &&& 64 != 0) = true ∧
    getname (decodeEntry (readSector cdiskT 361) 0) = tname ∧
    (find_file cdiskT tnameUpper false).map Prod.fst = none ∧
    (find_file cdiskT tname false).map Prod.fst = some 4 :=
  ⟨by decide, by decide, by decide, by decide⟩

/- ### C5: delete tombstone -/

/-- C5 (corrected): when find_file is asked to delete the matched entry
it assigns 0x80 to the whole flag byte: the deleted flag is set but the
in-use flag is cleared, so the tombstoned slot satisfies the emptiness
test of find_empty_entry and can be returned by the empty-slot scan. -/
theorem C5_delete_tombstone (d : Disk) (name : List Nat) (st : Nat) (d2 : Disk)
    (h : find_file d name true = some (st, d2)) :
    ∃ x e, x ∈ List.range' 361 8 ∧ e < 8 ∧
      find_file_pos d name = some (x, 16 * e) ∧
      d2 = writeSector d x ((readSector d x).set (16 * e) 128) ∧
      (decodeEntry (readSector d2 x) (16 * e)).flag = 128 ∧
      (decodeEntry (readSector d2 x) (16 * e)).flag &&& 64 = 0 ∧
      entryFree (readSector d2 x) e = true := by
  rw [find_file_eq_match d name true] at h
  cases hpos : find_file_pos d name with
  | none =>
    rw [hpos] at h
    cases h
  | some p =>
    obtain ⟨x, y⟩ := p
    rw [hpos] at h
    have hinj := Option.some.inj h
    have hy : writeSector d x ((readSector d x).set y 128) = d2 := by
      have := congrArg Prod.snd hinj
      simpa using this
    obtain ⟨x2, hx2mem, hfx⟩ := List.exists_of_findSome?_eq_some hpos
    cases hfind : (List.range 8).find?
        (fun e => entryMatches (readSector d x2) (16 * e) name) with
    | none =>
      rw [hfind] at hfx
      cases hfx
    | some e0 =>
      rw [hfind] at hfx
      rw [Option.map_some'] at hfx
      have hx2 : x2 = x := congrArg Prod.fst (Option.some.inj hfx)
      have hy2 : 16 * e0 = y := congrArg Prod.snd (Option.some.inj hfx)
      have he8 : e0 < 8 := by
        have hm := List.mem_of_find?_eq_some hfind
        rw [List.mem_range] at hm
        exact hm
      have hoff : 16 * e0 < 128 := by omega
      subst hx2
      subst hy2
      refine ⟨x2, e0, hx2mem, he8, rfl, hy.symm, ?_, ?_, ?_⟩
      · rw [← hy, readSector_writeSector_self]
        show (normBuf ((readSector d x2).set (16 * e0) 128)).getD (16 * e0) 0 = 128
        rw [normBuf_getD _ _ hoff, getD_set_nat,
          if_pos ⟨rfl, by rw [readSector_length]; omega⟩]
      · rw [← hy, readSector_writeSector_self]
        show ((normBuf ((readSector d x2).set (16 * e0) 128)).getD (16 * e0) 0) &&& 64 = 0
        rw [normBuf_getD _ _ hoff, getD_set_nat,
          if_pos ⟨rfl, by rw [readSector_length]; omega⟩]
        decide
      · rw [← hy, readSector_writeSector_self]
        unfold entryFree
        rw [normBuf_getD _ _ hoff, getD_set_nat,
          if_pos ⟨rfl, by rw [readSector_length]; omega⟩]
        decide

/-- Witness for C5 at the concrete volume holding t.txt. -/
theorem C5_witness :
    find_file cdiskT tname true = some (4, cdiskTdel) ∧
    (∃ x e, x ∈ List.range' 361 8 ∧ e < 8 ∧
      find_file_pos cdiskT tname = some (x, 16 * e) ∧
      cdiskTdel = writeSector cdiskT x ((readSector cdiskT x).set (16 * e) 128) ∧
      (decodeEntry (readSector cdiskTdel x) (16 * e)).flag = 128 ∧
      (decodeEntry (readSector cdiskTdel x) (16 * e)).flag &&& 64 = 0 ∧
      entryFree (readSector cdiskTdel x) e = true) :=
  ⟨rfl, C5_delete_tombstone cdiskT tname 4 cdiskTdel rfl⟩

/-- Counterexample to C5 as stated: after deleting t.txt the entry's flag
byte is exactly 0x80 (the in-use bit 0x40 is not set), and the empty-slot
scan, which before the deletion returned slot 1, now returns the
tombstoned slot 0. -/
theorem C5_counterexample :
    (find_file cdiskT tname true).map Prod.fst = some 4 ∧
    (decodeEntry (readSector cdiskTdel 361) 0).flag = 128 ∧
    (decodeEntry (readSector cdiskTdel 361) 0).flag &&& 64 = 0 ∧
    find_empty_entry cdiskT = some 1 ∧
    find_empty_entry cdiskTdel = some 0 :=
  ⟨by decide, by decide, by decide, by decide, by decide⟩

/- ### Bitmap count lemmas for C4 and C9 -/

theorem bitsInByte_eq (b : Nat) :
    bitsInByte b = ((List.range 8).filter (fun j => b.testBit j)).length := by
  unfold bitsInByte
  congr 1
  apply List.filter_congr
  intro j _
  exact land_two_pow_ne b j

theorem bitsInByte_mod (b : Nat) : bitsInByte (b % 256) = bitsInByte b := by
  rw [bitsInByte_eq, bitsInByte_eq]
  congr 1
  apply List.filter_congr
  intro j hj
  rw [List.mem_range] at hj
  rw [show (256 : Nat) = 2 ^ 8 from by norm_num, Nat.testBit_mod_two_pow]
  simp [hj]

theorem bitsInByte_le (b : Nat) : bitsInByte b ≤ 8 := by
  unfold bitsInByte
  calc ((List.range 8).filter (fun j => b &&& (1 <<< j) != 0)).length
      ≤ (List.range 8).length := List.length_filter_le _ _
  _ = 8 := List.length_range 8

theorem count_free_congr (a b : List Nat) (len : Nat)
    (h : ∀ i, i < len → a.getD i 0 = b.getD i 0 % 256) :
    count_free a len = count_free b len := by
  unfold count_free
  congr 1
  apply List.map_congr_left
  intro i hi
  rw [List.mem_range] at hi
  rw [h i hi, bitsInByte_mod]

theorem count_free_le (bm : List Nat) (len : Nat) :
    count_free bm len ≤ 8 * len := by
  induction len with
  | zero => simp [count_free]
  | succ n ih =>
    unfold count_free at ih ⊢
    rw [List.range_succ, List.map_append, List.sum_append]
    simp only [List.map_cons, List.map_nil, List.sum_cons, List.sum_nil]
    have := bitsInByte_le (bm.getD n 0)
    omega

theorem readSector_putbitmap_360 (ds : Nat) (d : Disk) (bm : List Nat) :
    readSector (putbitmap ds d bm) 360 = normBuf (vtocImage d bm) := by
  unfold putbitmap
  by_cases h : ds = 1024
  · rw [if_pos h]
    rw [readSector_writeSector_ne _ 1024 _ 360 (by norm_num) (by norm_num)
      (by norm_num)]
    exact readSector_writeSector_self _ _ _
  · rw [if_neg h]
    exact readSector_writeSector_self _ _ _

theorem readSector_putbitmap_1024 (d : Disk) (bm : List Nat) :
    readSector (putbitmap 1024 d bm) 1024 =
      normBuf (vtoc2Image (writeSector d 360 (vtocImage d bm)) bm) := by
  unfold putbitmap
  rw [if_pos rfl]
  exact readSector_writeSector_self _ _ _

theorem vtocImage_getD_bitmap (d : Disk) (bm : List Nat) (j : Nat) (hj : j < 90) :
    (vtocImage d bm).getD (10 + j) 0 = bm.getD j 0 := by
  unfold vtocImage
  rw [getD_map_range _ 128 (10 + j) (by omega), if_pos ⟨by omega, by omega⟩]
  congr 1
  omega

theorem vtocImage_getD_count (d : Disk) (bm : List Nat) :
    (vtocImage d bm).getD 3 0 = count_free bm 90 % 256 ∧
    (vtocImage d bm).getD 4 0 = (count_free bm 90 >>> 8) % 256 := by
  unfold vtocImage
  rw [getD_map_range _ 128 3 (by norm_num), getD_map_range _ 128 4 (by norm_num)]
  norm_num

theorem vtoc2Image_getD_bitmap (d1 : Disk) (bm : List Nat) (i : Nat)
    (hi : i < 122) : (vtoc2Image d1 bm).getD i 0 = bm.getD (6 + i) 0 := by
  unfold vtoc2Image
  rw [getD_map_range _ 128 i (by omega), if_pos hi]

theorem vtoc2Image_getD_count (d1 : Disk) (bm : List Nat) :
    (vtoc2Image d1 bm).getD 122 0 = count_free (bm.drop 90) 38 % 256 ∧
    (vtoc2Image d1 bm).getD 123 0 = (count_free (bm.drop 90) 38 >>> 8) % 256 := by
  unfold vtoc2Image
  rw [getD_map_range _ 128 122 (by norm_num), getD_map_range _ 128 123 (by norm_num)]
  norm_num

theorem getD_take_drop (l : List Nat) (a k i : Nat) (hi : i < k) :
    ((l.drop a).take k).getD i 0 = l.getD (a + i) 0 := by
  rw [List.getD_eq_getElem?_getD, List.getElem?_take_of_lt hi, List.getElem?_drop,
    ← List.getD_eq_getElem?_getD]

theorem count_reassemble (cnt : Nat) (hc : cnt < 65536) :
    cnt % 256 % 256 + 256 * ((cnt >>> 8) % 256 % 256) = cnt := by
  rw [mod256_mod256, mod256_mod256, shiftRight_eight,
    Nat.mod_eq_of_lt (by omega : cnt / 256 < 256), Nat.mod_add_div]

/-- C4: after putbitmap writes the bitmap, getbitmap's verification
recomputes a base-region free count that matches the stored count field,
and under extended geometry the secondary-region counts match as well. -/
theorem C4_bitmap_count_roundtrip (ds : Nat) (d : Disk) (bm : List Nat)
    (hds : ds = 720 ∨ ds = 1024) :
    getbitmap_vtoc_count_ok (putbitmap ds d bm) = true ∧
    (ds = 1024 → getbitmap_vtoc2_count_ok (putbitmap ds d bm) = true) := by
  constructor
  · unfold getbitmap_vtoc_count_ok
    dsimp only []
    rw [readSector_putbitmap_360]
    have hcnt : count_free (((normBuf (vtocImage d bm)).drop 10).take 90) 90 =
        count_free bm 90 := by
      apply count_free_congr
      intro i hi
      rw [getD_take_drop _ 10 90 i hi, normBuf_getD _ _ (by omega),
        vtocImage_getD_bitmap d bm i hi]
    have h3 : (normBuf (vtocImage d bm)).getD 3 0 = count_free bm 90 % 256 % 256 := by
      rw [normBuf_getD _ _ (by norm_num), (vtocImage_getD_count d bm).1]
    have h4 : (normBuf (vtocImage d bm)).getD 4 0 =
        (count_free bm 90 >>> 8) % 256 % 256 := by
      rw [normBuf_getD _ _ (by norm_num), (vtocImage_getD_count d bm).2]
    rw [hcnt, h3, h4, count_reassemble _ (by have := count_free_le bm 90; omega)]
    simp
  · intro h1024
    subst h1024
    unfold getbitmap_vtoc2_count_ok
    dsimp only []
    rw [readSector_putbitmap_1024]
    have hcnt : count_free (((normBuf (vtoc2Image (writeSector d 360 (vtocImage d bm))
        bm)).drop 84).take 38) 38 = count_free (bm.drop 90) 38 := by
      apply count_free_congr
      intro i hi
      rw [getD_take_drop _ 84 38 i hi, normBuf_getD _ _ (by omega),
        vtoc2Image_getD_bitmap _ bm (84 + i) (by omega)]
      have hdr : (bm.drop 90).getD i 0 = bm.getD (90 + i) 0 := by
        rw [List.getD_eq_getElem?_getD, List.getElem?_drop,
          ← List.getD_eq_getElem?_getD]
      rw [hdr, show 6 + (84 + i) = 90 + i from by omega]
    have h122 : (normBuf (vtoc2Image (writeSector d 360 (vtocImage d bm)) bm)).getD
        122 0 = count_free (bm.drop 90) 38 % 256 % 256 := by
      rw [normBuf_getD _ _ (by norm_num),
        (vtoc2Image_getD_count (writeSector d 360 (vtocImage d bm)) bm).1]
    have h123 : (normBuf (vtoc2Image (writeSector d 360 (vtocImage d bm)) bm)).getD
        123 0 = (count_free (bm.drop 90) 38 >>> 8) % 256 % 256 := by
      rw [normBuf_getD _ _ (by norm_num),
        (vtoc2Image_getD_count (writeSector d 360 (vtocImage d bm)) bm).2]
    rw [hcnt, h122, h123,
      count_reassemble _ (by have := count_free_le (bm.drop 90) 38; omega)]
    simp

/-- Witness for C4 under extended geometry. -/
theorem C4_witness :
    ((1024 : Nat) = 720 ∨ (1024 : Nat) = 1024) ∧
    getbitmap_vtoc_count_ok (putbitmap 1024 disk0 vtocFresh) = true ∧
    getbitmap_vtoc2_count_ok (putbitmap 1024 disk0 vtocFresh) = true :=
  ⟨Or.inr rfl, (C4_bitmap_count_roundtrip 1024 disk0 vtocFresh (Or.inr rfl)).1,
    (C4_bitmap_count_roundtrip 1024 disk0 vtocFresh (Or.inr rfl)).2 rfl⟩

/-- C9: under extended geometry putbitmap writes into the VTOC2 sector
the mirror bytes 0..83 (a copy of the base-region bitmap bits for sectors
48..719), the upper-region bitmap bytes 84..121 and its recomputed free
count at bytes 122..123 on every save, while getbitmap reconstructs the
in-memory bitmap reading only bytes 84..121 of the VTOC2 sector: the
result is independent of the mirror bytes 0..83. -/
theorem C9_vtoc2_mirror (d : Disk) (bm : List Nat) :
    (∀ i, i < 84 →
      (readSector (putbitmap 1024 d bm) 1024).getD i 0 = bm.getD (6 + i) 0 % 256) ∧
    (∀ s, 48 ≤ s → s < 720 →
      ((readSector (putbitmap 1024 d bm) 1024).getD (s / 8 - 6) 0).testBit
        (7 - s % 8) = bmGet bm s) ∧
    (∀ i, 84 ≤ i → i < 122 →
      (readSector (putbitmap 1024 d bm) 1024).getD i 0 = bm.getD (6 + i) 0 % 256) ∧
    ((readSector (putbitmap 1024 d bm) 1024).getD 122 0 +
      256 * (readSector (putbitmap 1024 d bm) 1024).getD 123 0 =
      count_free (bm.drop 90) 38) ∧
    (∀ d1 d2 : Disk, readSector d1 360 = readSector d2 360 →
      (∀ i, 84 ≤ i → i < 122 →
        (readSector d1 1024).getD i 0 = (readSector d2 1024).getD i 0) →
      getbitmap_bm 1024 d1 = getbitmap_bm 1024 d2) := by
  have hbyte : ∀ i, i < 122 →
      (readSector (putbitmap 1024 d bm) 1024).getD i 0 = bm.getD (6 + i) 0 % 256 := by
    intro i hi
    rw [readSector_putbitmap_1024, normBuf_getD _ _ (by omega),
      vtoc2Image_getD_bitmap _ bm i hi]
  refine ⟨fun i hi => hbyte i (by omega), ?_, fun i _ hi => hbyte i hi, ?_, ?_⟩
  · intro s hs48 hs720
    rw [hbyte (s / 8 - 6) (by omega)]
    rw [show 6 + (s / 8 - 6) = s / 8 from by omega]
    rw [show (256 : Nat) = 2 ^ 8 from by norm_num, Nat.testBit_mod_two_pow]
    rw [bmGet_eq_testBit]
    have h8 : 7 - s % 8 < 8 := by omega
    simp [h8]
  · rw [readSector_putbitmap_1024, normBuf_getD _ _ (by norm_num),
      normBuf_getD _ _ (by norm_num),
      (vtoc2Image_getD_count (writeSector d 360 (vtocImage d bm)) bm).1,
      (vtoc2Image_getD_count (writeSector d 360 (vtocImage d bm)) bm).2,
      count_reassemble _ (by have := count_free_le (bm.drop 90) 38; omega)]
  · intro d1 d2 h360 hupper
    unfold getbitmap_bm
    rw [if_pos rfl, if_pos rfl, h360]
    congr 1
    apply List.ext_getElem?
    intro j
    by_cases hj : j < 38
    · rw [List.getElem?_take_of_lt hj, List.getElem?_take_of_lt hj,
        List.getElem?_drop, List.getElem?_drop]
      have hl1 : 84 + j < (readSector d1 1024).length := by
        rw [readSector_length]; omega
      have hl2 : 84 + j < (readSector d2 1024).length := by
        rw [readSector_length]; omega
      rw [List.getElem?_eq_getElem hl1, List.getElem?_eq_getElem hl2]
      have hup := hupper (84 + j) (by omega) (by omega)
      rw [List.getD_eq_getElem?_getD, List.getD_eq_getElem?_getD,
        List.getElem?_eq_getElem hl1, List.getElem?_eq_getElem hl2] at hup
      simpa using hup
    · have hlen1 : (((readSector d1 1024).drop 84).take 38).length ≤ j := by
        simp [readSector_length]
        omega
      have hlen2 : (((readSector d2 1024).drop 84).take 38).length ≤ j := by
        simp [readSector_length]
        omega
      rw [List.getElem?_eq_none hlen1, List.getElem?_eq_none hlen2]

/-- Witness for C9 at a concrete volume and bitmap. -/
theorem C9_witness :
    ((48 : Nat) ≤ 48 ∧ (48 : Nat) < 720 ∧ (100 : Nat) < 122 ∧ (84 : Nat) ≤ 100) ∧
    (readSector (putbitmap 1024 disk0 vtocFresh) 1024).getD 0 0 =
      vtocFresh.getD 6 0 % 256 ∧
    ((readSector (putbitmap 1024 disk0 vtocFresh) 1024).getD 0 0).testBit 7 =
      bmGet vtocFresh 48 ∧
    (readSector (putbitmap 1024 disk0 vtocFresh) 1024).getD 100 0 =
      vtocFresh.getD 106 0 % 256 ∧
    (readSector (putbitmap 1024 disk0 vtocFresh) 1024).getD 122 0 +
      256 * (readSector (putbitmap 1024 disk0 vtocFresh) 1024).getD 123 0 =
      count_free (vtocFresh.drop 90) 38 :=
  ⟨by decide,
    (C9_vtoc2_mirror disk0 vtocFresh).1 0 (by decide),
    by
      have h := (C9_vtoc2_mirror disk0 vtocFresh).2.1 48 (by decide) (by decide)
      simpa using h,
    (C9_vtoc2_mirror disk0 vtocFresh).2.2.1 100 (by decide) (by decide),
    (C9_vtoc2_mirror disk0 vtocFresh).2.2.2.1⟩

/- ### C7: sector access errors -/

/-- C7 (corrected): getsect and putsect terminate with the sector-zero
error on every call with index 0, for every backing store; but neither
checks the result of the underlying seek, read or write, so no call ever
produces an IOFailure, even when every access to the backing store fails. -/
theorem C7_sector_errors (st : Store) (sect : Nat) (buf : List Nat) :
    getsectE st 0 = Except.error AtrErr.invalidSectorZero ∧
    putsectE st 0 buf = Except.error AtrErr.invalidSectorZero ∧
    getsectE st sect ≠ Except.error AtrErr.ioFailure ∧
    putsectE st sect buf ≠ Except.error AtrErr.ioFailure := by
  refine ⟨rfl, rfl, ?_, ?_⟩
  · unfold getsectE
    by_cases h : sect = 0
    · rw [if_pos h]
      intro hc
      have h2 := Except.error.inj hc
      exact absurd h2 (by decide)
    · rw [if_neg h]
      intro hc
      exact Except.noConfusion hc
  · unfold putsectE
    by_cases h : sect = 0
    · rw [if_pos h]
      intro hc
      have h2 := Except.error.inj hc
      exact absurd h2 (by decide)
    · rw [if_neg h]
      intro hc
      exact Except.noConfusion hc

/-- Witness for C7 at a concrete store and sector. -/
theorem C7_witness :
    getsectE storeDead 0 = Except.error AtrErr.invalidSectorZero ∧
    getsectE storeDead 5 ≠ Except.error AtrErr.ioFailure :=
  ⟨(C7_sector_errors storeDead 5 []).1, (C7_sector_errors storeDead 5 []).2.2.1⟩

/-- Counterexample to C7 as stated: on a backing store where every read
fails, getsect at sector 1 still reports success (with an all-zero
buffer) instead of IOFailure, and putsect likewise reports success. -/
theorem C7_counterexample :
    getsectE storeDead 1 = Except.ok (List.replicate 128 0) ∧
    getsectE storeDead 1 ≠ Except.error AtrErr.ioFailure ∧
    (putsectE storeDead 1 (List.replicate 128 7)).isOk = true := by
  refine ⟨rfl, ?_, rfl⟩
  intro hc
  rw [show getsectE storeDead 1 = Except.ok (List.replicate 128 0) from rfl] at hc
  exact Except.noConfusion hc

/- ### C8: failure leaves state unchanged only without a prior delete -/

/-- C8 (corrected): when no file of the requested name exists, so that
the initial delete step of put_file writes nothing, a DirectoryFull or
InsufficientSpace failure of put_file leaves the volume unchanged.  When
a same-named file does exist, put_file deletes it before checking
directory space or allocating, so those failures leave the deletion
persisted (see the counterexample). -/
theorem C8_error_state (ds fuel : Nat) (d : Disk) (name content : List Nat)
    (hnof : find_file d name true = none) :
    (find_empty_entry d = none →
      put_file ds fuel d name content = (some AtrErr.directoryFull, d)) ∧
    (∀ fn, find_empty_entry d = some fn →
      (alloc_space ds (getbitmap_bm ds d) (upSize content.length / 125)).1 = none →
      put_file ds fuel d name content = (some AtrErr.insufficientSpace, d)) := by
  have hrm : rm ds fuel d name = (some AtrErr.notFound, d) := by
    unfold rm
    rw [hnof]
  constructor
  · intro hfe
    simp only [put_file, hrm, hfe]
  · intro fn hfe halloc
    cases hsplit : alloc_space ds (getbitmap_bm ds d) (upSize content.length / 125) with
    | mk ol bm2 =>
      rw [hsplit] at halloc
      simp only at halloc
      subst halloc
      simp only [put_file, hrm, hfe, write_file, hsplit]

/-- Witness for C8 at a concrete volume with a full bitmap and no file
named t. -/
theorem C8_witness :
    find_file cdiskT nameT true = none ∧
    find_empty_entry cdiskT = some 1 ∧
    (alloc_space 720 (getbitmap_bm 720 cdiskT)
      (upSize ([65] : List Nat).length / 125)).1 = none ∧
    put_file 720 3 cdiskT nameT [65] = (some AtrErr.insufficientSpace, cdiskT) :=
  ⟨rfl, rfl, by decide,
    (C8_error_state 720 3 cdiskT nameT [65] rfl).2 1 rfl (by decide)⟩

/-- Counterexample to C8 as stated: the volume stores t.txt and has no
free sector; putting a 300-byte file under the same name fails with
InsufficientSpace, yet the volume has changed: the directory entry's
flag byte at offset 46096 was 64 (in use) and is now 128 (deleted). -/
theorem C8_counterexample :
    (put_file 720 8 cdiskT tname (List.replicate 300 65)).1 =
      some AtrErr.insufficientSpace ∧
    (put_file 720 8 cdiskT tname (List.replicate 300 65)).2 46096 = 128 ∧
    cdiskT 46096 = 64 :=
  ⟨by decide, by decide, by decide⟩

/- ### C1: round trip helpers -/

theorem find_empty_entry_lt (d : Disk) (slot : Nat)
    (h : find_empty_entry d = some slot) : slot < 64 := by
  obtain ⟨x, hxmem, hfx⟩ := List.exists_of_findSome?_eq_some h
  cases hfind : (List.range 8).find? (fun e => entryFree (readSector d x) e) with
  | none =>
    rw [hfind] at hfx
    cases hfx
  | some e0 =>
    rw [hfind, Option.map_some'] at hfx
    have he : e0 < 8 := by
      have hm := List.mem_of_find?_eq_some hfind
      rw [List.mem_range] at hm
      exact hm
    rw [List.mem_range'_1] at hxmem
    have heq : (x - 361) * 8 + e0 = slot := Option.some.inj hfx
    omega

theorem alloc_space_mem_bounds (ds : Nat) (bm : List Nat) (n : Nat)
    (l : List Nat) (h : (alloc_space ds bm n).1 = some l) :
    l.length = n ∧ l.Nodup ∧ ∀ s ∈ l, 1 ≤ s ∧ s < ds ∧ bmGet bm s = true := by
  rw [alloc_space_eq] at h
  by_cases hn : n ≤ (freeList ds bm).length
  · rw [if_pos hn] at h
    have hl : l = (freeList ds bm).take n := (Option.some.injEq _ _ ▸ h.symm)
    subst hl
    refine ⟨by rw [List.length_take]; omega,
      List.Nodup.sublist (List.take_sublist _ _) (freeList_nodup ds bm), ?_⟩
    intro s hs
    have hmem : s ∈ freeList ds bm := List.mem_of_mem_take hs
    have h1 := (List.mem_filter.mp hmem).1
    have h2 := (List.mem_filter.mp hmem).2
    rw [List.mem_range'_1] at h1
    exact ⟨by omega, by omega, h2⟩
  · rw [if_neg hn] at h
    simp at h

theorem readSector_putbitmap_other (ds : Nat) (d : Disk) (bm : List Nat)
    (s : Nat) (hs : 1 ≤ s) (h360 : s ≠ 360) (h1024 : s ≠ 1024) :
    readSector (putbitmap ds d bm) s = readSector d s := by
  unfold putbitmap
  by_cases h : ds = 1024
  · rw [if_pos h, readSector_writeSector_ne _ 1024 _ s (by norm_num) hs h1024,
      readSector_writeSector_ne _ 360 _ s (by norm_num) hs h360]
  · rw [if_neg h, readSector_writeSector_ne _ 360 _ s (by norm_num) hs h360]

theorem readSector_write_dir_other (d : Disk) (fn : Nat) (name : List Nat)
    (first sects s : Nat) (hs : 1 ≤ s) (hne : s ≠ 361 + fn / 8) :
    readSector (write_dir d fn name first sects) s = readSector d s := by
  unfold write_dir
  exact readSector_writeSector_ne _ _ _ _ (by omega) hs hne

theorem getD_splice (pre mid post : List Nat) (k : Nat) (hk : k < mid.length) :
    (pre ++ (mid ++ post)).getD (pre.length + k) 0 = mid.getD k 0 := by
  rw [List.getD_eq_getElem?_getD,
    List.getElem?_append_right (Nat.le_add_right _ _), Nat.add_sub_cancel_left,
    List.getElem?_append_left hk, ← List.getD_eq_getElem?_getD]

theorem putname_name_length (nm : List Nat) : (putname_name nm).length = 8 := by
  unfold putname_name
  simp only [List.length_append, List.length_map, List.length_replicate]
  have h8 : ((nm.takeWhile (fun c => c != 0 && c != 46)).take 8).length ≤ 8 := by
    rw [List.length_take]
    omega
  omega

theorem putname_ext_length (nm : List Nat) : (putname_ext nm).length = 3 := by
  unfold putname_ext
  dsimp only []
  split
  next r tl heq =>
    simp only [List.length_append, List.length_map, List.length_replicate]
    have h3 : ((tl.takeWhile (fun c => c != 0)).take 3).length ≤ 3 := by
      rw [List.length_take]
      omega
    omega
  next =>
    simp

theorem dirEntryStart_write_dir (d : Disk) (fn : Nat) (name : List Nat)
    (first sects : Nat) (hfirst : first < 65536) :
    dirEntryStart (write_dir d fn name first sects) fn = first := by
  unfold dirEntryStart write_dir decodeEntry dirent.start
  dsimp only []
  rw [readSector_writeSector_self]
  have hmod : fn % 8 < 8 := Nat.mod_lt _ (by norm_num)
  have hlen : ((readSector d (361 + fn / 8)).take (16 * (fn % 8))).length =
      16 * (fn % 8) := by
    rw [List.length_take, readSector_length]
    omega
  have hentlen : (([64, sects % 256, (sects >>> 8) % 256, first % 256,
      (first >>> 8) % 256] ++ putname_name name ++ putname_ext name) :
      List Nat).length = 16 := by
    simp [putname_name_length, putname_ext_length]
  have hsp : ∀ k, k < 5 →
      ((readSector d (361 + fn / 8)).take (16 * (fn % 8)) ++
        ([64, sects % 256, (sects >>> 8) % 256, first % 256, (first >>> 8) % 256] ++
          putname_name name ++ putname_ext name) ++
        (readSector d (361 + fn / 8)).drop (16 * (fn % 8) + 16)).getD
        (16 * (fn % 8) + k) 0 =
      ([64, sects % 256, (sects >>> 8) % 256, first % 256,
        (first >>> 8) % 256] : List Nat).getD k 0 := by
    intro k hk
    rw [List.getD_eq_getElem?_getD,
      List.getElem?_append_left
        (by rw [List.length_append, hlen, hentlen]; omega),
      List.getElem?_append_right (by rw [hlen]; omega), hlen,
      Nat.add_sub_cancel_left,
      List.getElem?_append_left
        (by rw [List.length_append, putname_name_length]; simp; omega),
      List.getElem?_append_left (by simp; omega),
      ← List.getD_eq_getElem?_getD]
  rw [normBuf_getD _ _ (by omega), normBuf_getD _ _ (by omega), hsp 4 (by omega),
    hsp 3 (by omega)]
  simp only [List.getD_cons_succ, List.getD_cons_zero]
  rw [shiftRight_eight, Nat.shiftLeft_eq]
  have h28 : (2 : Nat) ^ 8 = 256 := by norm_num
  rw [h28]
  omega

theorem range_getD_self (l : List Nat) :
    (List.range l.length).map (fun i => l.getD i 0) = l := by
  apply List.ext_getElem?
  intro i
  by_cases hi : i < l.length
  · rw [List.getElem?_map, List.getElem?_range hi, Option.map_some',
      List.getElem?_eq_getElem hi]
    congr 1
    rw [List.getD_eq_getElem?_getD, List.getElem?_eq_getElem hi]
    rfl
  · rw [List.getElem?_eq_none (by simp; omega), List.getElem?_eq_none (by omega)]

/-- C1 (corrected): for a buffer of positive length L in the claim's set,
writing it with put_file onto a volume holding no same-named file, with a
free directory slot and enough free data sectors away from the metadata
region, and then reading the chain back with read_file from the written
directory entry's starting sector, returns exactly the L bytes written.
For L = 0 the round trip fails: put_file records starting sector 0 and
read_file aborts with the sector-zero error (see the counterexample). -/
theorem C1_roundtrip (ds fuel : Nat) (d : Disk) (name content : List Nat)
    (slot : Nat) (list : List Nat)
    (hds : ds = 720 ∨ ds = 1024)
    (hLset : content.length = 1 ∨ content.length = 124 ∨ content.length = 125 ∨
      content.length = 126 ∨ content.length = 249 ∨ content.length = 10000)
    (hbytes : ∀ b ∈ content, b < 256)
    (hnof : find_file d name true = none)
    (hslot : find_empty_entry d = some slot)
    (halloc : (alloc_space ds (getbitmap_bm ds d)
      (upSize content.length / 125)).1 = some list)
    (hmeta : ∀ s ∈ list, ¬ (360 ≤ s ∧ s ≤ 368))
    (hfuel : upSize content.length / 125 ≤ fuel) :
    (put_file ds fuel d name content).1 = none ∧
    read_file (put_file ds fuel d name content).2 false fuel
      (dirEntryStart (put_file ds fuel d name content).2 slot) =
      Except.ok content := by
  have hL1 : 1 ≤ content.length := by rcases hLset with h|h|h|h|h|h <;> omega
  have hup : upSize content.length = 125 * (upSize content.length / 125) ∧
      content.length ≤ upSize content.length ∧
      upSize content.length < content.length + 125 := by
    unfold upSize
    omega
  have hsects1 : 1 ≤ upSize content.length / 125 := by
    unfold upSize at hup ⊢
    omega
  have hrm : rm ds fuel d name = (some AtrErr.notFound, d) := by
    unfold rm
    rw [hnof]
  cases hsplit : alloc_space ds (getbitmap_bm ds d) (upSize content.length / 125) with
  | mk ol bm2 =>
  rw [hsplit] at halloc
  simp only at halloc
  subst halloc
  obtain ⟨hlen, hnd, hbounds⟩ := alloc_space_mem_bounds ds (getbitmap_bm ds d)
    (upSize content.length / 125) list (by rw [hsplit])
  have hne : list ≠ [] := by
    intro hc
    rw [hc] at hlen
    simp at hlen
    omega
  have hslot64 : slot < 64 := find_empty_entry_lt d slot hslot
  have hds1024 : ds ≤ 1024 := by rcases hds with h | h <;> omega
  have hput : put_file ds fuel d name content =
      (none,
        putbitmap ds
          (write_dir
            (applyLog d (write_sectors slot
              (content ++ List.replicate (upSize content.length - content.length) 0)
              list content.length))
            slot name (list.headD 0) (upSize content.length / 125))
          bm2) := by
    simp only [put_file, hrm, hslot, write_file, hsplit]
  rw [hput]
  refine ⟨rfl, ?_⟩
  have hfirstmem : list.headD 0 ∈ list := by
    cases list with
    | nil => exact absurd rfl hne
    | cons a t => exact List.mem_cons_self _ _
  have hfirstlt : list.headD 0 < 1024 :=
    Nat.lt_of_lt_of_le (hbounds _ hfirstmem).2.1 hds1024
  have hdirlo : 361 ≤ 361 + slot / 8 := by omega
  have hdirhi : 361 + slot / 8 ≤ 368 := by omega
  have hstart : dirEntryStart
      (putbitmap ds
        (write_dir
          (applyLog d (write_sectors slot
            (content ++ List.replicate (upSize content.length - content.length) 0)
            list content.length))
          slot name (list.headD 0) (upSize content.length / 125))
        bm2) slot = list.headD 0 := by
    have h1 : readSector
        (putbitmap ds
          (write_dir
            (applyLog d (write_sectors slot
              (content ++ List.replicate (upSize content.length - content.length) 0)
              list content.length))
            slot name (list.headD 0) (upSize content.length / 125))
          bm2) (361 + slot / 8) =
        readSector
          (write_dir
            (applyLog d (write_sectors slot
              (content ++ List.replicate (upSize content.length - content.length) 0)
              list content.length))
            slot name (list.headD 0) (upSize content.length / 125)) (361 + slot / 8) :=
      readSector_putbitmap_other ds _ bm2 _ (by omega) (by omega) (by omega)
    unfold dirEntryStart
    rw [h1]
    exact dirEntryStart_write_dir _ slot name (list.headD 0)
      (upSize content.length / 125) (by omega)
  rw [hstart]
  have hread : ∀ p ∈ write_sectors slot
      (content ++ List.replicate (upSize content.length - content.length) 0)
      list content.length,
      readSector
        (putbitmap ds
          (write_dir
            (applyLog d (write_sectors slot
              (content ++ List.replicate (upSize content.length - content.length) 0)
              list content.length))
            slot name (list.headD 0) (upSize content.length / 125))
          bm2) p.1 = normBuf p.2 := by
    intro p hp
    have hp1 : p.1 ∈ list := by
      rw [← write_sectors_map_fst slot list
        (content ++ List.replicate (upSize content.length - content.length) 0)
        content.length]
      exact List.mem_map_of_mem Prod.fst hp
    have h1le : 1 ≤ p.1 := (hbounds _ hp1).1
    have hnot360 := hmeta _ hp1
    have hlt1024 : p.1 < 1024 := Nat.lt_of_lt_of_le (hbounds _ hp1).2.1 hds1024
    rw [readSector_putbitmap_other ds _ bm2 _ h1le (by omega) (by omega),
      readSector_write_dir_other _ slot name _ _ _ h1le (by omega)]
    apply readSector_applyLog_mem _ d _ _ p hp
    · rw [write_sectors_map_fst]
      exact hnd
    · intro q hq
      have hq1 : q.1 ∈ list := by
        rw [← write_sectors_map_fst slot list
          (content ++ List.replicate (upSize content.length - content.length) 0)
          content.length]
        exact List.mem_map_of_mem Prod.fst hq
      exact (hbounds _ hq1).1
  have hchain := read_file_chain
    (putbitmap ds
      (write_dir
        (applyLog d (write_sectors slot
          (content ++ List.replicate (upSize content.length - content.length) 0)
          list content.length))
        slot name (list.headD 0) (upSize content.length / 125))
      bm2) slot list
    (content ++ List.replicate (upSize content.length - content.length) 0)
    content.length fuel hne
    (fun s hs => ⟨(hbounds s hs).1, Nat.lt_of_lt_of_le (hbounds s hs).2.1 hds1024⟩)
    hslot64
    (by rw [hlen]; unfold upSize at hup ⊢; omega)
    (by rw [hlen]; unfold upSize at hup ⊢; omega)
    (by
      intro j hj
      rw [List.getD_append _ _ _ _ (by omega)]
      have hj2 : content.getD j 0 = content[j] := by
        rw [List.getD_eq_getElem?_getD, List.getElem?_eq_getElem hj]
        rfl
      rw [hj2]
      exact hbytes _ (List.getElem_mem _))
    hread
    (by rw [hlen]; exact hfuel)
  rw [hchain]
  congr 1
  have hcongr : ∀ j ∈ List.range content.length,
      (content ++ List.replicate (upSize content.length - content.length) 0).getD
        j 0 = content.getD j 0 := by
    intro j hj
    rw [List.mem_range] at hj
    rw [List.getD_append _ _ _ _ (by omega)]
  rw [List.map_congr_left hcongr, range_getD_self]

/-- Witness for C1 at a one-byte file on the fresh volume. -/
theorem C1_witness :
    (alloc_space 720 (getbitmap_bm 720 cdiskEmpty)
      (upSize ([65] : List Nat).length / 125)).1 = some [4] ∧
    (put_file 720 4 cdiskEmpty nameT [65]).1 = none ∧
    read_file (put_file 720 4 cdiskEmpty nameT [65]).2 false 4
      (dirEntryStart (put_file 720 4 cdiskEmpty nameT [65]).2 0) =
      Except.ok [65] :=
  ⟨by decide,
    (C1_roundtrip 720 4 cdiskEmpty nameT [65] 0 [4] (Or.inl rfl) (Or.inl rfl)
      (by decide) rfl rfl (by decide) (by decide) (by decide)).1,
    (C1_roundtrip 720 4 cdiskEmpty nameT [65] 0 [4] (Or.inl rfl) (Or.inl rfl)
      (by decide) rfl rfl (by decide) (by decide) (by decide)).2⟩

/-- Counterexample to C1 as stated at L = 0: putting a zero-byte file
succeeds but records starting sector 0 in the directory entry (the
memset-zeroed sector list is never filled), and reading the file back
aborts with the sector-zero error instead of returning 0 bytes. -/
theorem C1_counterexample :
    find_empty_entry cdiskEmpty = some 0 ∧
    (put_file 720 4 cdiskEmpty nameT []).1 = none ∧
    dirEntryStart (put_file 720 4 cdiskEmpty nameT []).2 0 = 0 ∧
    read_file (put_file 720 4 cdiskEmpty nameT []).2 false 4
      (dirEntryStart (put_file 720 4 cdiskEmpty nameT []).2 0) =
      Except.error AtrErr.invalidSectorZero :=
  ⟨rfl, by decide, by decide, by rfl⟩

end Atr
